import Mathlib

set_option maxRecDepth 100000

/-!
Verification development for the Web-Scapper backend (src/backend/server.py).

The Python code is shallowly embedded as executable Lean definitions.
Strings are modelled over their ASCII fragment: the character classes of
Python's `str.strip`, `str.split`, `str.isupper`, `str.title`, `str.lower`
and of the regular expressions `\s`, `\d`, `\w` are realised on ASCII
characters (every concrete input evaluated in this file is ASCII).
External capabilities (the newspaper3k / trafilatura / readability
extractors, HTTP fetches, the Gemini model, pdfplumber page extraction)
are modelled as explicit inputs, exactly at the boundary where the Python
code consumes them; all decision logic downstream of those boundaries is
translated from the source.
-/
/-! ### Character classes (ASCII fragment of Python's classes) -/
/-- Python whitespace (`str.strip`, `str.split`, regex `\s`), ASCII part:
space, tab, newline, carriage return, vertical tab, form feed. -/
def isWs (c : Char) : Bool :=
  c = ' ' || c = '\t' || c = '\n' || c = '\x0d' || c = '\x0b' || c = '\x0c'

/-- The character class `[ \t]` of `re.sub(r'[ \t]+', ' ', ...)`. -/
def isSpTab (c : Char) : Bool := c = ' ' || c = '\t'

def isDigitCh (c : Char) : Bool := '0' ≤ c && c ≤ '9'

def isUpperCh (c : Char) : Bool := 'A' ≤ c && c ≤ 'Z'

def isLowerCh (c : Char) : Bool := 'a' ≤ c && c ≤ 'z'

def isAlphaCh (c : Char) : Bool := isUpperCh c || isLowerCh c

/-- Regex `\w` (ASCII part): letters, digits, underscore. -/
def isWordCh (c : Char) : Bool := isAlphaCh c || isDigitCh c || c = '_'

def toLowerCh (c : Char) : Char :=
  if isUpperCh c then Char.ofNat (c.toNat + 32) else c

def toUpperCh (c : Char) : Char :=
  if isLowerCh c then Char.ofNat (c.toNat - 32) else c

/-- Python `str.strip()` (no argument): drop whitespace at both ends. -/
def pyStripL (l : List Char) : List Char :=
  ((l.dropWhile isWs).reverse.dropWhile isWs).reverse

def pyStrip (s : String) : String := ⟨pyStripL s.data⟩

/-- Fuelled worker for `countTokensL` (structural recursion on the fuel,
so that the definition reduces inside the kernel; the fuel
`l.length` is always sufficient because every step consumes at least one
character). -/
def countTokensGo : Nat → List Char → Nat
  | 0, _ => 0
  | _ + 1, [] => 0
  | f + 1, c :: rest =>
    if isWs c then countTokensGo f rest
    else 1 + countTokensGo f (rest.dropWhile (fun d => !isWs d))

/-- Number of whitespace-delimited tokens, i.e. `len(s.split())` in Python. -/
def countTokensL (l : List Char) : Nat := countTokensGo l.length l

def countTokens (s : String) : Nat := countTokensL s.data

/-- Python `'\n'.join(...)` / `str.split('\n')` pair: split at every newline,
keeping empty pieces. -/
def splitNlL : List Char → List (List Char)
  | [] => [[]]
  | c :: rest =>
    if c = '\n' then [] :: splitNlL rest
    else
      match splitNlL rest with
      | [] => [[c]]
      | hd :: tl => (c :: hd) :: tl

def joinNlL : List (List Char) → List Char
  | [] => []
  | [x] => x
  | x :: xs => x ++ '\n' :: joinNlL xs

/-! ### TextNormalizer: `_clean_and_convert_to_markdown` and `_clean_markdown` -/
/-- Number of newline characters in a list. -/
def countNL (l : List Char) : Nat := (l.filter (fun c => c = '\n')).length

/-- The part of an (all-whitespace) run before its first newline. -/
def runPre (l : List Char) : List Char := l.takeWhile (fun c => c ≠ '\n')

/-- The part of an (all-whitespace) run after its last newline. -/
def runPost (l : List Char) : List Char :=
  (l.reverse.takeWhile (fun c => c ≠ '\n')).reverse

/-- Normalisation of one maximal whitespace run under
`re.sub(r'\n\s*\n\s*\n', '\n\n', ...)`: a run containing three or more
newlines has the region from its first to its last newline replaced by
exactly two newlines (the regex match starts at the run's first `\n`,
greedily ends at its last `\n`, and is replaced by `"\n\n"`); runs with
fewer newlines are untouched. -/
def normRun (w : List Char) : List Char :=
  if 3 ≤ countNL w then runPre w ++ '\n' :: '\n' :: runPost w else w

/-- Fuelled worker for `collapseNL` (structural, so it reduces in the
kernel; fuel `l.length` always suffices). -/
def collapseNLGo : Nat → List Char → List Char
  | 0, _ => []
  | _ + 1, [] => []
  | f + 1, c :: rest =>
    if isWs c then
      normRun ((c :: rest).takeWhile isWs) ++ collapseNLGo f ((c :: rest).dropWhile isWs)
    else c :: collapseNLGo f rest

/-- `re.sub(r'\n\s*\n\s*\n', '\n\n', text)`: collapse every whitespace run
holding three or more newlines down to two. -/
def collapseNL (l : List Char) : List Char := collapseNLGo l.length l

/-- Fuelled worker for `collapseSP`. -/
def collapseSPGo : Nat → List Char → List Char
  | 0, _ => []
  | _ + 1, [] => []
  | f + 1, c :: rest =>
    if isSpTab c then ' ' :: collapseSPGo f (rest.dropWhile isSpTab)
    else c :: collapseSPGo f rest

/-- `re.sub(r'[ \t]+', ' ', text)`: collapse every run of spaces/tabs to a
single space. -/
def collapseSP (l : List Char) : List Char := collapseSPGo l.length l

/-- Python `str.isupper()` (ASCII): at least one cased character, and no
cased character is lowercase. -/
def pyIsUpper (l : List Char) : Bool :=
  l.any isAlphaCh && l.all (fun c => !isLowerCh c)

/-- Python `str.title()` (ASCII): a letter directly after a non-letter (or
at the start) is uppercased, every other letter is lowercased. -/
def pyTitleGo : Bool → List Char → List Char
  | _, [] => []
  | prevAlpha, c :: rest =>
    if isAlphaCh c then
      (if prevAlpha then toLowerCh c else toUpperCh c) :: pyTitleGo true rest
    else c :: pyTitleGo false rest

def pyTitleL (l : List Char) : List Char := pyTitleGo false l

/-- The per-line processing of `_clean_and_convert_to_markdown`: strip the
line; empty lines pass through; a short all-uppercase line becomes a
level-2 header in title case; a short line not ending in `.`, `,`, `;`
becomes a level-3 header; anything else stays a body line. -/
def lineify (line : List Char) : List Char :=
  let ls := pyStripL line
  if ls = [] then []
  else if ls.length < 100 && pyIsUpper ls then
    '#' :: '#' :: ' ' :: pyTitleL ls
  else if ls.length < 80 && !(ls.getLast? = some '.') && !(ls.getLast? = some ',')
      && !(ls.getLast? = some ';') then
    '#' :: '#' :: '#' :: ' ' :: ls
  else ls

/-- `ContentScraper._clean_and_convert_to_markdown` (the TextNormalizer's
`normalize`): strip, collapse newline runs, collapse space runs, then
classify each line (header promotion) and re-join. -/
def clean_and_convert_to_markdownL (l : List Char) : List Char :=
  joinNlL ((splitNlL (collapseSP (collapseNL (pyStripL l)))).map lineify)

def clean_and_convert_to_markdown (s : String) : String :=
  ⟨clean_and_convert_to_markdownL s.data⟩

/-- `re.sub(r'\[\]\([^)]*\)', '', text)`: delete every empty markdown link
`[](...)`. If a `[](` has no closing parenthesis anywhere after it, nothing
from there on can match and the rest is kept as is. -/
def removeEmptyLinksGo : Nat → List Char → List Char
  | 0, l => l
  | _ + 1, [] => []
  | f + 1, '[' :: ']' :: '(' :: rest =>
    (match rest.dropWhile (fun c => c ≠ ')') with
     | [] => '[' :: ']' :: '(' :: rest
     | _ :: rest2 => removeEmptyLinksGo f rest2)
  | f + 1, c :: rest => c :: removeEmptyLinksGo f rest

def removeEmptyLinks (l : List Char) : List Char := removeEmptyLinksGo l.length l

/-- `ContentScraper._clean_markdown`: collapse newline runs, collapse
space runs, delete empty links, strip. -/
def clean_markdownL (l : List Char) : List Char :=
  pyStripL (removeEmptyLinks (collapseSP (collapseNL l)))

def clean_markdown (s : String) : String := ⟨clean_markdownL s.data⟩

/-! ### Whitespace-collapse lemmas (for the idempotence analysis) -/
/-- The head of the list, when present, fails the predicate. -/
def headNotP (p : α → Bool) : List α → Prop
  | [] => True
  | y :: _ => p y = false

/-- The last element of the list, when present, fails the predicate. -/
def lastNotP (p : α → Bool) (l : List α) : Prop := headNotP p l.reverse

/-- The whitespace-collapsing core of `_clean_and_convert_to_markdown`:
its first three statements (`strip`, collapse newline runs, collapse
space/tab runs), without the header promotion that follows. -/
def whitespace_collapseL (l : List Char) : List Char :=
  collapseSP (collapseNL (pyStripL l))

def whitespace_collapse (s : String) : String := ⟨whitespace_collapseL s.data⟩

/-! ### URL utilities and the link classifier (`_is_valid_blog_link`) -/
def startsWithL : List Char → List Char → Bool
  | [], _ => true
  | _ :: _, [] => false
  | p :: ps, c :: cs => p = c && startsWithL ps cs

/-- `pat` occurs somewhere in the list (regex `re.search` of a literal). -/
def containsL (pat : List Char) : List Char → Bool
  | [] => startsWithL pat []
  | l@(_ :: rest) => startsWithL pat l || containsL pat rest

/-- Some suffix of the list (including the empty one) satisfies `f`:
the scanning of `re.search` for an anchored-at-position matcher `f`. -/
def existsSuffix (f : List Char → Bool) : List Char → Bool
  | [] => f []
  | l@(_ :: rest) => f l || existsSuffix f rest

def toLowerL (l : List Char) : List Char := l.map toLowerCh

/-- Drop everything up to and including the first `://`. -/
def dropThroughSS : List Char → List Char
  | [] => []
  | ':' :: '/' :: '/' :: r => r
  | _ :: r => dropThroughSS r

def notPathEnd (c : Char) : Bool := c ≠ '/' && c ≠ '?' && c ≠ '#'

/-- `urlparse(url).path` modelled for absolute http(s) URLs with a netloc
(the shape produced by `urljoin` in the crawler): the piece after the host,
cut at the query/fragment separators. -/
def urlPath (l : List Char) : List Char :=
  ((dropThroughSS l).dropWhile notPathEnd).takeWhile (fun c => c ≠ '?' && c ≠ '#')

/-- `urlparse(url).netloc` under the same modelling. -/
def urlNetloc (l : List Char) : List Char := (dropThroughSS l).takeWhile notPathEnd

/-- Anchored matcher for `/\d{4}/\d{2}/\d{2}/` at the head of a suffix. -/
def dateAt : List Char → Bool
  | '/' :: a :: b :: c :: d :: '/' :: e :: f :: '/' :: g :: h :: '/' :: _ =>
    isDigitCh a && isDigitCh b && isDigitCh c && isDigitCh d &&
    isDigitCh e && isDigitCh f && isDigitCh g && isDigitCh h
  | _ => false

/-- Digits (one or more already begun) then a `/` (for `/\d+/`). -/
def digitsSlash : List Char → Bool
  | [] => false
  | c :: r => if isDigitCh c then digitsSlash r else c = '/'

/-- Anchored matcher for `/\d+/` at the head of a suffix. -/
def numSegAt : List Char → Bool
  | '/' :: c :: r => isDigitCh c && digitsSlash (c :: r)
  | _ => false

/-- Anchored matcher for `/page/\d+` at the head of a suffix. -/
def pageNumAt (l : List Char) : Bool :=
  startsWithL "/page/".data l &&
    (match l.drop 6 with
     | c :: _ => isDigitCh c
     | [] => false)

def endsWithL (pat l : List Char) : Bool := startsWithL pat.reverse l.reverse

/-- `re.search(r'/\d{4}/$', url)`: the url ends in slash, four digits, slash. -/
def endsYear (l : List Char) : Bool :=
  match l.reverse with
  | '/' :: d :: c :: b :: a :: '/' :: _ =>
    isDigitCh a && isDigitCh b && isDigitCh c && isDigitCh d
  | _ => false

/-- `re.search(r'/\d{4}/\d{2}/$', url)`. -/
def endsYearMonth (l : List Char) : Bool :=
  match l.reverse with
  | '/' :: f :: e :: '/' :: d :: c :: b :: a :: '/' :: _ =>
    isDigitCh a && isDigitCh b && isDigitCh c && isDigitCh d &&
    isDigitCh e && isDigitCh f
  | _ => false

def isSlugCh (c : Char) : Bool := isLowerCh c || isDigitCh c || c = '-'

/-- Slug characters (at least one already begun) then a `/`, on a reversed
lowercased url: matcher for `/[a-zA-Z0-9-]+/$`. -/
def slugRev : List Char → Bool
  | [] => false
  | c :: r => if isSlugCh c then slugRev r else c = '/'

def endsSlug (l : List Char) : Bool :=
  match l.reverse with
  | '/' :: c :: r => isSlugCh c && slugRev (c :: r)
  | _ => false

/-- The `skip_patterns` of `_is_valid_blog_link`, evaluated with
`re.search(..., re.IGNORECASE)` on the (lowercased) url. -/
def matchesSkip (lu : List Char) : Bool :=
  containsL "/tag/".data lu || containsL "/category/".data lu ||
  containsL "/author/".data lu || containsL "/search/".data lu ||
  containsL "/about".data lu || containsL "/contact".data lu ||
  containsL "/privacy".data lu || containsL "/terms".data lu ||
  containsL "/wp-admin/".data lu || containsL "/wp-content/".data lu ||
  containsL "/feed".data lu ||
  endsWithL ".css".data lu || endsWithL ".js".data lu ||
  endsWithL ".png".data lu || endsWithL ".jpg".data lu ||
  endsWithL ".jpeg".data lu || endsWithL ".gif".data lu ||
  endsWithL ".pdf".data lu ||
  containsL "#".data lu || containsL "mailto:".data lu ||
  containsL "tel:".data lu || containsL "javascript:".data lu ||
  existsSuffix pageNumAt lu || endsYear lu || endsYearMonth lu

/-- The `article_patterns` of `_is_valid_blog_link`. -/
def matchesArticle (lu : List Char) : Bool :=
  existsSuffix dateAt lu ||
  containsL "/post/".data lu || containsL "/posts/".data lu ||
  containsL "/article/".data lu || containsL "/articles/".data lu ||
  containsL "/blog/".data lu ||
  existsSuffix numSegAt lu || endsSlug lu

/-- The non-AI body of `ContentScraper._is_valid_blog_link` (its
"fallback to old logic"): scheme must be http(s); any skip pattern
rejects; then any article pattern accepts; otherwise accept only a
non-trivial path that does not end in `/`. -/
def is_valid_blog_link_heuristic (url : String) : Bool :=
  let lu := toLowerL url.data
  if !(startsWithL "http://".data lu || startsWithL "https://".data lu) then false
  else if matchesSkip lu then false
  else if matchesArticle lu then true
  else
    let path := urlPath url.data
    !(path = []) && decide (1 < path.length) && !(path.getLast? = some '/')

/-- Outcome of the optional Gemini call inside `_is_valid_blog_link`:
the model may be absent, the call may raise, or it may answer with a
response whose first line parses to a boolean (`none` covers both an
empty/falsy response and a response that fails to parse as JSON). -/
inductive AiOut
  | unavailable : AiOut
  | raised : AiOut
  | resp : Option Bool → AiOut

deriving DecidableEq

/-- `ContentScraper._is_valid_blog_link`: ask Gemini when configured; a
parsed answer is returned as is; an unparseable or empty response falls
through to the heuristic; a raising call is caught by the enclosing
`except` and returns `False`; an absent model goes straight to the
heuristic. The `base_domain` argument is only interpolated into the
prompt and never inspected. -/
def is_valid_blog_link (ai : AiOut) (url : String) (base_domain : String) : Bool :=
  match ai with
  | .unavailable => is_valid_blog_link_heuristic url
  | .raised => false
  | .resp none => is_valid_blog_link_heuristic url
  | .resp (some b) => b

/-! ### `_extract_title_from_url` -/
def stripCharL (ch : Char) (l : List Char) : List Char :=
  ((l.dropWhile (fun c => c = ch)).reverse.dropWhile (fun c => c = ch)).reverse

def splitCharL (sep : Char) : List Char → List (List Char)
  | [] => [[]]
  | c :: rest =>
    if c = sep then [] :: splitCharL sep rest
    else
      match splitCharL sep rest with
      | [] => [[c]]
      | hd :: tl => (c :: hd) :: tl

/-- Python `str.replace(pat, "")`: delete every (left-to-right,
non-overlapping) occurrence of `pat`. -/
def removeSubAllGo (pat : List Char) : Nat → List Char → List Char
  | 0, l => l
  | _ + 1, [] => []
  | f + 1, c :: rest =>
    if pat ≠ [] ∧ startsWithL pat (c :: rest) then
      removeSubAllGo pat f ((c :: rest).drop pat.length)
    else c :: removeSubAllGo pat f rest

def removeSubAll (pat : List Char) (l : List Char) : List Char :=
  removeSubAllGo pat l.length l

/-- `ContentScraper._extract_title_from_url`: title-case the last path
segment (hyphens/underscores become spaces), falling back to the netloc
with `www.` removed. -/
def extract_title_from_url (url : String) : String :=
  let path := stripCharL '/' (urlPath url.data)
  if path ≠ [] then
    let seg := ((splitCharL '/' path).getLast?).getD []
    ⟨pyTitleL (seg.map (fun c => if c = '-' || c = '_' then ' ' else c))⟩
  else
    ⟨pyTitleL (removeSubAll "www.".data (urlNetloc url.data))⟩

/-! ### `scrape_url`: the four-strategy extraction chain -/
/-- One candidate extraction retained by the orchestrator
(the dict `best_content` in `scrape_url`). -/
structure Attempt where
  title : String
  content : String
  author : Option String
  method : String
  word_count : Nat

deriving DecidableEq

/-- What `newspaper3k` gave back (`Article.download(); Article.parse()`):
`none` when download/parse raised; `text = none` models `article.text`
being `None`. -/
structure NewsResult where
  text : Option String
  title : Option String
  authors : List String

deriving DecidableEq

/-- What `trafilatura` gave back; `none` at the outer level when
`fetch_url` returned nothing or raised; `text = none` models
`trafilatura.extract` returning `None`. Title/author stand for the
truthy metadata fields (`none` = absent or falsy). -/
structure TrafResult where
  text : Option String
  title : Option String
  author : Option String

deriving DecidableEq

/-- What the requests+readability strategy saw: the summary html
(`doc.summary()`), the text `html2text` produced from it (`self.h.handle`),
and the truthy document title if any. `none` at the outer level when the
fetch or parse raised. -/
structure ReadResult where
  html : String
  handled : String
  title : Option String

deriving DecidableEq

/-- The parsed JSON of the Gemini direct-fetch fallback (method 4);
`none` when the model raised, answered nothing, or the first line did not
parse as JSON. -/
structure GemFetch where
  content : String
  title : Option String
  author : Option String

deriving DecidableEq

/-- The parsed result of `_enhance_content_with_gemini` when it reports
`enhanced = True`; each field is `none` when the corresponding key is
absent from the returned dict. `none` at the outer level when the call
raised, the response was empty, or enhancement was skipped. -/
structure Enhance where
  content : Option String
  title : Option String
  author : Option String
  category : Option String

deriving DecidableEq

/-- All external observations one `scrape_url` call can make. -/
structure UrlInputs where
  url : String
  geminiModel : Bool
  news : Option NewsResult
  traf : Option TrafResult
  readab : Option ReadResult
  gemFetch : Option GemFetch
  enhance : Option Enhance

deriving DecidableEq

/-- Python `a or b` for an optional string against a fallback:
`None` and `""` are falsy. -/
def pyOrStr (a : Option String) (b : String) : String :=
  match a with
  | some t => if t = "" then b else t
  | none => b

/-- Python `a or b` on two optional strings (`get("author") or ...`). -/
def pyOrOpt (a b : Option String) : Option String :=
  match a with
  | some t => if t = "" then b else some t
  | none => b

/-- Method 1 (`newspaper3k`): accepted when `article.text` is truthy and
its stripped length exceeds 50. -/
def attempt1 (i : UrlInputs) : Option Attempt :=
  i.news.bind fun a =>
    a.text.bind fun t =>
      if t ≠ "" ∧ 50 < (pyStrip t).length then
        some { title := pyOrStr a.title (extract_title_from_url i.url)
               content := t
               author := if a.authors = [] then none
                         else some (String.intercalate ", " a.authors)
               method := "newspaper3k"
               word_count := countTokens t }
      else none

/-- Method 2 (`trafilatura`). -/
def attempt2 (i : UrlInputs) : Option Attempt :=
  i.traf.bind fun tr =>
    tr.text.bind fun t =>
      if t ≠ "" ∧ 50 < (pyStrip t).length then
        some { title := pyOrStr tr.title (extract_title_from_url i.url)
               content := t
               author := tr.author
               method := "trafilatura"
               word_count := countTokens t }
      else none

/-- Method 3 (requests + readability): accepted when the summary html is
truthy and longer than 50 once stripped; the retained content is the
`_clean_markdown` of the `html2text` rendering. -/
def attempt3 (i : UrlInputs) : Option Attempt :=
  i.readab.bind fun r =>
    if r.html ≠ "" ∧ 50 < (pyStrip r.html).length then
      let ct := clean_markdown r.handled
      some { title := pyOrStr r.title (extract_title_from_url i.url)
             content := ct
             author := none
             method := "readability"
             word_count := countTokens ct }
    else none

/-- Method 4 (Gemini direct fetch), before its gating: accepted when the
parsed JSON has a truthy `content`. -/
def attempt4raw (i : UrlInputs) : Option Attempt :=
  i.gemFetch.bind fun g =>
    if g.content ≠ "" then
      some { title := pyOrStr g.title (extract_title_from_url i.url)
             content := g.content
             author := g.author
             method := "gemini-direct-fetch"
             word_count := countTokens g.content }
    else none

def wcOf : Option Attempt → Nat
  | none => 0
  | some a => a.word_count

/-- One comparison step of the chain: a produced attempt replaces the
current best only when its `word_count` is strictly larger. -/
def chainStep (best : Option Attempt) (a : Option Attempt) : Option Attempt :=
  match a with
  | none => best
  | some t => if wcOf best < t.word_count then some t else best

/-- The best attempt after methods 1-3. -/
def best3 (i : UrlInputs) : Option Attempt :=
  chainStep (chainStep (chainStep none (attempt1 i)) (attempt2 i)) (attempt3 i)

/-- The Gemini fallback only runs when no best exists yet or it has fewer
than 100 words, and the model is configured; when it produces an attempt
it replaces the best unconditionally. -/
def gate4 (i : UrlInputs) : Bool :=
  ((best3 i).isNone || decide (wcOf (best3 i) < 100)) && i.geminiModel

/-- The chosen attempt and the `extraction_methods_tried` list accumulated
by `scrape_url` (a method is appended exactly when it produced an
attempt). -/
def chooseBest (i : UrlInputs) : Option Attempt × List String :=
  let b3 :=
    if gate4 i then
      match attempt4raw i with
      | some t => some t
      | none => best3 i
    else best3 i
  let tried :=
    (if (attempt1 i).isSome then ["newspaper3k"] else []) ++
    (if (attempt2 i).isSome then ["trafilatura"] else []) ++
    (if (attempt3 i).isSome then ["readability"] else []) ++
    (if gate4 i && (attempt4raw i).isSome then ["gemini-direct-fetch"] else [])
  (b3, tried)

/-- The record `scrape_url` returns (the ScrapedContent model without the
generated id/timestamp and the pass-through team/user fields). -/
structure ScrapedContent where
  title : String
  content : String
  content_type : String
  source_url : String
  author : Option String
  word_count : Nat
  extraction_method : String

deriving DecidableEq

inductive ScrapeError
  | extractionFailed : List String → ScrapeError

deriving DecidableEq

/-- `ContentScraper.scrape_url`: run the chain, fail with the tried-method
list if nothing was chosen, otherwise optionally re-enhance with Gemini
(only when the model is configured and the winning content has non-blank
strip) and assemble the final record, recomputing `word_count` from the
final content. -/
def scrape_url (i : UrlInputs) (content_type : String) :
    Except ScrapeError ScrapedContent :=
  match chooseBest i with
  | (none, tried) => .error (.extractionFailed tried)
  | (some best, _) =>
    let effEnh := if i.geminiModel ∧ pyStrip best.content ≠ "" then i.enhance
                  else none
    match effEnh with
    | some e =>
      let fc := e.content.getD best.content
      .ok { title := pyOrStr e.title best.title
            content := fc
            content_type := e.category.getD content_type
            source_url := i.url
            author := pyOrOpt e.author best.author
            word_count := countTokens fc
            extraction_method := best.method ++ "+gemini" }
    | none =>
      let fc := clean_and_convert_to_markdown best.content
      .ok { title := best.title
            content := fc
            content_type := content_type
            source_url := i.url
            author := best.author
            word_count := countTokens fc
            extraction_method := best.method }

/-! ### `bulk_scrape_with_links` -/
/-- Content-type inference from url substrings in the bulk loop. -/
def inferContentType (link : String) : String :=
  let ll := toLowerL link.data
  if containsL "podcast".data ll then "podcast_transcript"
  else if containsL "linkedin".data ll then "linkedin_post"
  else if containsL "reddit".data ll then "reddit_comment"
  else "blog"

/-- Outcome of one Gemini classification call in the bulk loop: the call
may raise (aborting the whole link loop via the enclosing `except`), or
complete with a first line that parses to a boolean (`none` = empty
response or JSON parse failure, leaving `is_article = False`). -/
inductive ClassifyOut
  | raised : ClassifyOut
  | ok : Option Bool → ClassifyOut

deriving DecidableEq

/-- De-duplication preserving discovery order (`if full_url not in
all_links`): the first occurrence of each link is kept. -/
def dedupGo (seen : List String) : List String → List String
  | [] => []
  | x :: rest =>
    if x ∈ seen then dedupGo seen rest else x :: dedupGo (x :: seen) rest

def dedupKeepOrder (l : List String) : List String := dedupGo [] l

/-- All external observations one `bulk_scrape_with_links` call makes:
the seed scrape (`none` = raised, caught and skipped), the seed fetch with
the already-resolved absolute hrefs in document order (`none` = raised),
the per-link Gemini classification and the per-link scrape
(`none` = raised, caught and skipped). -/
structure BulkInputs where
  url : String
  geminiModel : Bool
  seedScrape : Option ScrapedContent
  seedFetch : Option (List String)
  classify : String → ClassifyOut
  linkScrape : String → String → Option ScrapedContent

/-- The link-processing loop of `bulk_scrape_with_links` (step 3):
already-processed links are skipped; a raising Gemini call aborts the
rest of the loop, keeping what was accumulated; accepted links are
scraped with an inferred content-type hint, failures being skipped. -/
def bulkLoop (i : BulkInputs) :
    List String → List String → List ScrapedContent → List ScrapedContent
  | [], _, acc => acc
  | link :: rest, processed, acc =>
    if link ∈ processed then bulkLoop i rest processed acc
    else
      match (if i.geminiModel then i.classify link else .ok none) with
      | .raised => acc
      | .ok r =>
        if r.getD false then
          match i.linkScrape link (inferContentType link) with
          | some item => bulkLoop i rest (link :: processed) (acc ++ [item])
          | none => bulkLoop i rest processed acc
        else bulkLoop i rest processed acc

/-- Step 1 of `bulk_scrape_with_links`: the seed scrape, giving the
initial `scraped_items` and `processed_urls`. -/
def bulkSeed (i : BulkInputs) (include_base_url : Bool) :
    List ScrapedContent × List String :=
  if include_base_url then
    match i.seedScrape with
    | some c => ([c], [i.url])
    | none => ([], [])
  else ([], [])

/-- `ContentScraper.bulk_scrape_with_links`: scrape the seed when asked
(failure skipped), then when `max_depth > 0 and max_links > 0` fetch the
seed page, de-duplicate the discovered links preserving order, truncate
to `max_links`, and run the classification/scrape loop. -/
def bulk_scrape_with_links (i : BulkInputs) (max_depth max_links : Nat)
    (include_base_url : Bool) : List ScrapedContent :=
  if 0 < max_depth ∧ 0 < max_links then
    match i.seedFetch with
    | none => (bulkSeed i include_base_url).1
    | some hrefs =>
      bulkLoop i ((dedupKeepOrder hrefs).take max_links)
        (bulkSeed i include_base_url).2 (bulkSeed i include_base_url).1
  else (bulkSeed i include_base_url).1

/-! ### `scrape_pdf` and the PdfChunker -/
/-- One page as seen through `pdfplumber`: `.error ()` models
`extract_text()` raising (propagating to the enclosing `except` in
`scrape_pdf`); a `None` return is already folded into `""` by the
`or ""` at every call site. -/
abbrev PdfPage := Except Unit String

/-- Character admissible inside the TOC title group `[A-Z][\w\s\-:]+`. -/
def isTitleCh (c : Char) : Bool := isWordCh c || isWs c || c = '-' || c = ':'

def natOfDigits (l : List Char) : Nat :=
  l.foldl (fun acc c => acc * 10 + (c.toNat - 48)) 0

/-- Matcher for `re.compile(r'([A-Z][\w\s\-:]+)\s+\.{2,}\s*(\d+)$').match`
on an already-stripped line. The title class contains no dot, so a match
decomposes the line at its first dot run: a prefix (capital first letter,
title-class characters, at least one trailing whitespace, length at least
three to fit `[A-Z][\w\s\-:]+\s+`), two or more dots, optional whitespace
and a final digit group. Returns the stripped group 1 and the parsed
group 2. -/
def tocLineMatch (l : List Char) : Option (String × Nat) :=
  let pre := l.takeWhile (fun c => c ≠ '.')
  let rest := l.dropWhile (fun c => c ≠ '.')
  let dots := rest.takeWhile (fun c => c = '.')
  let after := rest.dropWhile (fun c => c = '.')
  let digits := after.dropWhile isWs
  match pre with
  | [] => none
  | p0 :: ptail =>
    if isUpperCh p0 && ptail.all isTitleCh && 3 ≤ pre.length &&
        (pre.getLast?.elim false isWs) && 2 ≤ dots.length &&
        !(digits = []) && digits.all isDigitCh then
      some (⟨pyStripL pre⟩, natOfDigits digits)
    else none

/-- Entries harvested from one page's text: each line is stripped,
matched, and kept when the title is longer than five characters and the
one-based target page is inside the document. -/
def tocEntriesOfText (text : List Char) (numPages : Nat) : List (String × Nat) :=
  (splitCharL '\n' text).filterMap fun line =>
    match tocLineMatch (pyStripL line) with
    | some (title, n) =>
      if 5 < title.length ∧ 1 ≤ n ∧ n - 1 < numPages then some (title, n - 1)
      else none
    | none => none

def insertByPage (x : String × Nat) : List (String × Nat) → List (String × Nat)
  | [] => [x]
  | y :: t => if y.2 < x.2 then y :: insertByPage x t else x :: y :: t

/-- Stable ascending sort by target page (Python `sorted(..., key=page)`). -/
def sortByPage : List (String × Nat) → List (String × Nat)
  | [] => []
  | x :: t => insertByPage x (sortByPage t)

def detect_toc_go (numPages : Nat) : List PdfPage → Except Unit (List (String × Nat))
  | [] => .ok []
  | .error _ :: _ => .error ()
  | .ok t :: rest => (detect_toc_go numPages rest).map (tocEntriesOfText t.data numPages ++ ·)

/-- `ContentScraper._detect_toc`: scan the first ten pages (an
`extract_text` failure propagates), accept only three or more entries,
sorted by target page. -/
def detect_toc (pages : List PdfPage) : Except Unit (List (String × Nat)) :=
  (detect_toc_go pages.length (pages.take 10)).map fun toc =>
    if 3 ≤ toc.length then sortByPage toc else []

def range_go : List PdfPage → Except Unit (List Char)
  | [] => .ok []
  | .error _ :: _ => .error ()
  | .ok t :: rest => (range_go rest).map (fun r => t.data ++ '\n' :: r)

/-- `ContentScraper._extract_text_range`: pages `start` to
`min(end, len(pages))`, each followed by a newline. -/
def extract_text_range (pages : List PdfPage) (s e : Nat) : Except Unit (List Char) :=
  range_go ((pages.take (min e pages.length)).drop s)

/-- The section spans induced by the sorted TOC entries: each entry runs
to the next entry's page, the last one to the end of the document. -/
def tocSpans : List (String × Nat) → Nat → List (String × Nat × Nat)
  | [], _ => []
  | [(t, s)], total => [(t, s, total)]
  | (t, s) :: (t2, s2) :: rest, total => (t, s, s2) :: tocSpans ((t2, s2) :: rest) total

/-- The item dict built by `scrape_pdf`; the Python dict carries exactly
the six string keys below, and in particular never a `word_count` key —
recorded here as the `none` value of an optional field. -/
structure PdfItem where
  title : String
  content : String
  content_type : String
  source_url : String
  author : String
  user_id : String
  word_count : Option Nat

deriving DecidableEq

def mkPdfItem (title content filename user_id : String) : PdfItem :=
  { title := title, content := content, content_type := "book",
    source_url := filename, author := "", user_id := user_id,
    word_count := none }

/-- The TOC section loop of `scrape_pdf`: sections whose raw extracted
text strips to more than 50 characters become items with markdown-cleaned
content; an `extract_text` failure ends the loop keeping the items built
so far (flagged `true`). -/
def toc_loop (pages : List PdfPage) (filename user_id : String) :
    List (String × Nat × Nat) → List PdfItem → List PdfItem × Bool
  | [], acc => (acc, false)
  | (t, s, e) :: rest, acc =>
    match extract_text_range pages s e with
    | .error _ => (acc, true)
    | .ok content =>
      if 50 < (pyStripL content).length then
        toc_loop pages filename user_id rest
          (acc ++ [mkPdfItem t (clean_and_convert_to_markdown ⟨content⟩) filename user_id])
      else toc_loop pages filename user_id rest acc

/-- Heading detector of `_chunk_by_headings` on an already-stripped line:
uppercase and longer than five characters, or `re.match(r'^\d+\.\s+[A-Z]', ...)`. -/
def numHeadTail : List Char → Bool
  | [] => false
  | c :: r =>
    if isDigitCh c then numHeadTail r
    else c = '.' &&
      (match r with
       | d :: _ =>
         isWs d &&
           (match r.dropWhile isWs with
            | e :: _ => isUpperCh e
            | [] => false)
       | [] => false)

def isHeadingLine (l : List Char) : Bool :=
  (pyIsUpper l && decide (5 < l.length)) ||
  (match l with
   | c :: r => isDigitCh c && numHeadTail r
   | [] => false)

/-- The first line of the page (stripped) that is a heading, if any
(the inner `for`/`break`). -/
def firstHeading (lines : List (List Char)) : Option (List Char) :=
  match lines with
  | [] => none
  | line :: rest =>
    let ls := pyStripL line
    if isHeadingLine ls then some ls else firstHeading rest

def chunk_go (idx total : Nat) (title : Option String) (content : List Char)
    (start : Nat) (acc : List (Option String × String × String)) :
    List PdfPage → Except Unit (List (Option String × String × String))
  | [] =>
    .ok (acc ++
      if pyStripL content ≠ [] then
        [(title, ⟨pyStripL content⟩, toString (start + 1) ++ "-" ++ toString total)]
      else [])
  | .error _ :: _ => .error ()
  | .ok t :: rest =>
    match firstHeading (splitCharL '\n' t.data) with
    | some h =>
      let acc2 :=
        if pyStripL content ≠ [] then
          acc ++ [(title, ⟨pyStripL content⟩, toString (start + 1) ++ "-" ++ toString idx)]
        else acc
      chunk_go (idx + 1) total (some ⟨h⟩) [] idx acc2 rest
    | none => chunk_go (idx + 1) total title (content ++ t.data ++ ['\n']) start acc rest

/-- `ContentScraper._chunk_by_headings`: a page whose first heading line
opens a new section closes the previous one; pages with a heading
contribute no body text (the line loop `break`s before accumulating). -/
def chunk_by_headings (pages : List PdfPage) :
    Except Unit (List (Option String × String × String)) :=
  chunk_go 0 pages.length none [] 0 [] pages

def adaptive_go (idx total : Nat) (content : List Char) (start : Nat)
    (acc : List (String × String)) : List PdfPage → Except Unit (List (String × String))
  | [] =>
    .ok (acc ++
      if pyStripL content ≠ [] then
        [(⟨pyStripL content⟩, toString (start + 1) ++ "-" ++ toString total)]
      else [])
  | .error _ :: _ => .error ()
  | .ok t :: rest =>
    let c2 := content ++ t.data ++ ['\n']
    if 8000 < c2.length then
      adaptive_go (idx + 1) total [] (idx + 1)
        (acc ++ [(⟨pyStripL c2⟩, toString (start + 1) ++ "-" ++ toString (idx + 1))]) rest
    else adaptive_go (idx + 1) total c2 start acc rest

/-- `ContentScraper._adaptive_chunking` with the default
`target_chunk_size = 8000`. -/
def adaptive_chunking (pages : List PdfPage) : Except Unit (List (String × String)) :=
  adaptive_go 0 pages.length [] 0 [] pages

/-- The heading/adaptive tail of `scrape_pdf`, reached when TOC chunking
produced nothing. -/
def scrape_pdf_tail (pages : List PdfPage) (filename user_id : String) : List PdfItem :=
  match chunk_by_headings pages with
  | .error _ => []
  | .ok hchunks =>
    let hitems :=
      if 3 ≤ hchunks.length then
        hchunks.enum.filterMap fun p =>
          if 50 < (pyStrip p.2.2.1).length then
            some (mkPdfItem
              (pyOrStr p.2.1
                ("Section " ++ toString (p.1 + 1) ++ " (pages " ++ p.2.2.2 ++ ")"))
              (clean_and_convert_to_markdown p.2.2.1) filename user_id)
          else none
      else []
    if hitems ≠ [] then hitems
    else
      match adaptive_chunking pages with
      | .error _ => []
      | .ok achunks =>
        achunks.enum.filterMap fun p =>
          if 50 < (pyStrip p.2.1).length then
            some (mkPdfItem
              ("Chunk " ++ toString (p.1 + 1) ++ " (pages " ++ p.2.2 ++ ")")
              (clean_and_convert_to_markdown p.2.1) filename user_id)
          else none

/-- `ContentScraper.scrape_pdf`: `none` input models `pdfplumber.open`
raising on bytes that are not a valid PDF (caught, yielding the items
accumulated so far — the empty list). TOC chunking is tried first; when
it yields items they are returned; an extraction failure mid-loop returns
the partial accumulation; otherwise heading chunking (needing three or
more chunks), then adaptive chunking. -/
def scrape_pdf (doc : Option (List PdfPage)) (filename user_id : String) :
    List PdfItem :=
  match doc with
  | none => []
  | some pages =>
    match detect_toc pages with
    | .error _ => []
    | .ok toc =>
      if toc ≠ [] then
        match toc_loop pages filename user_id (tocSpans toc pages.length) [] with
        | (items, true) => items
        | (items, false) =>
          if items ≠ [] then items else scrape_pdf_tail pages filename user_id
      else scrape_pdf_tail pages filename user_id

/-! ### Concrete inputs used by the claim theorems -/
def mkWords (n : Nat) : String := String.intercalate " " (List.replicate n "ab")

/-- Strategy outcomes where newspaper3k extracts 40 words, trafilatura
200 words and readability 120 words. -/
def inputsC1 : UrlInputs :=
  { url := "https://example.com/post/x", geminiModel := false,
    news := some { text := some (mkWords 40), title := some "T1", authors := [] },
    traf := some { text := some (mkWords 200), title := some "T2", author := none },
    readab := some { html := mkWords 40, handled := mkWords 120, title := some "T3" },
    gemFetch := none, enhance := none }

/-- Strategy outcomes where only newspaper3k (40 words) and readability
(120 words) produce an attempt. -/
def inputsC1w : UrlInputs :=
  { url := "https://example.com/post/x", geminiModel := false,
    news := some { text := some (mkWords 40), title := some "T1", authors := [] },
    traf := none,
    readab := some { html := mkWords 40, handled := mkWords 120, title := some "T3" },
    gemFetch := none, enhance := none }

/-- Every strategy fails or produces no attempt (trafilatura's text is
too short for its 50-character gate). -/
def inputsC7 : UrlInputs :=
  { url := "https://example.com/x", geminiModel := true,
    news := none, traf := some { text := some "short", title := none, author := none },
    readab := none, gemFetch := none, enhance := none }

/-- A successful newspaper3k extraction with no AI configured. -/
def inputsC2w : UrlInputs :=
  { url := "https://example.com/x", geminiModel := false,
    news := some { text := some "aaaaaaaaaaaaaaaaaaaaa bbbbbbbbbbbbbbbbbbbbb ccccccccccccccccc.",
                   title := some "T", authors := [] },
    traf := none, readab := none, gemFetch := none, enhance := none }

/-- The record `scrape_url inputsC2w "blog"` produces. -/
def itemC2w : ScrapedContent :=
  { title := "T",
    content := "aaaaaaaaaaaaaaaaaaaaa bbbbbbbbbbbbbbbbbbbbb ccccccccccccccccc.",
    content_type := "blog", source_url := "https://example.com/x",
    author := none, word_count := 3, extraction_method := "newspaper3k" }

def fillerPage : String :=
  "lorem ipsum dolor sit amet consectetur adipiscing elit sed do."

/-- A 12-page document whose first page holds three dot-leader TOC lines
pointing at pages 1, 5 and 9. -/
def pagesC5 : List PdfPage :=
  (.ok "Contents\nIntroduction .... 1\nChapter Two .... 5\nChapter Three .... 9") ::
    List.replicate 11 (.ok fillerPage)

/-- A one-page document whose text is two letters separated by sixty
spaces: 62 characters raw, 3 characters once whitespace is collapsed. -/
def pagesC6 : List PdfPage :=
  [.ok ("a" ++ String.mk (List.replicate 60 ' ') ++ "b")]

/-- The single item `scrape_pdf` produces for `pagesC6`. -/
def pdfItemC6 : PdfItem := mkPdfItem "Chunk 1 (pages 1-1)" "### a b" "f.pdf" ""

/-- A 12-page document with a TOC on page one whose last section covers
page 12, where `extract_text` raises. -/
def pagesC10 : List PdfPage :=
  (.ok "Contents\nIntroduction .... 1\nSecond Part .... 6\nThird Part .... 11") ::
    (List.replicate 10 ((.ok fillerPage) : PdfPage)) ++ [.error ()]

/-- A bulk-scrape input with no Gemini model, one discovered link that the
heuristic would accept, and a link scraper that would succeed. -/
def bulkC3 : BulkInputs :=
  { url := "https://example.com/", geminiModel := false,
    seedScrape := none,
    seedFetch := some ["https://example.com/blog/post1"],
    classify := fun _ => .ok (some true),
    linkScrape := fun u c =>
      some { title := "L", content := "c", content_type := c, source_url := u,
             author := none, word_count := 1, extraction_method := "m" } }

def hrefsC4 : List String :=
  (List.range 20).map fun n => "https://example.com/post/" ++ toString n

/-- A bulk-scrape input whose seed page carries 20 distinct discovered
links, with an accepting classifier and a succeeding link scraper. -/
def bulkC4 : BulkInputs :=
  { url := "https://example.com/", geminiModel := true,
    seedScrape := some { title := "S", content := "c", content_type := "blog",
                         source_url := "https://example.com/", author := none,
                         word_count := 1, extraction_method := "m" },
    seedFetch := some hrefsC4,
    classify := fun _ => .ok (some true),
    linkScrape := fun u c =>
      some { title := "L", content := "c", content_type := c, source_url := u,
             author := none, word_count := 1, extraction_method := "m" } }

deriving instance DecidableEq for Except

/-- The per-item shape guaranteed at every append site of `scrape_pdf`:
content is the markdown cleanup of a raw section text whose strip exceeds
50 characters, and no `word_count` key is ever set. -/
def PdfItemSpec (fn uid : String) (it : PdfItem) : Prop :=
  ∃ raw : String, 50 < (pyStrip raw).length ∧
    it.content = clean_and_convert_to_markdown raw ∧
    it.word_count = none ∧ it.content_type = "book" ∧
    it.source_url = fn ∧ it.author = "" ∧ it.user_id = uid

/-- Replace a raising page by one that extracts the empty string: the
failure-free counterpart of a document. -/
def fixPage : PdfPage → PdfPage
  | .ok s => .ok s
  | .error _ => .ok ""

/-! ### Basic list-of-characters utilities -/
theorem lengthDropWhileLe (p : α → Bool) (l : List α) :
    (l.dropWhile p).length ≤ l.length := by
  induction l with
  | nil => simp [List.dropWhile]
  | cons a l ih => by_cases h : p a <;> simp [List.dropWhile, h] <;> omega

theorem countTokensGo_fuel (f1 : Nat) : ∀ (f2 : Nat) (l : List Char),
    l.length ≤ f1 → l.length ≤ f2 → countTokensGo f1 l = countTokensGo f2 l := by
  induction f1 with
  | zero =>
    intro f2 l h1 _
    have hl : l = [] := List.length_eq_zero.mp (Nat.le_zero.mp h1)
    subst hl
    cases f2 <;> rfl
  | succ f ih =>
    intro f2 l h1 h2
    cases l with
    | nil => cases f2 <;> rfl
    | cons c rest =>
      cases f2 with
      | zero => simp at h2
      | succ f2b =>
        simp only [List.length_cons] at h1 h2
        simp only [countTokensGo]
        have hd := lengthDropWhileLe (fun d => !isWs d) rest
        by_cases hc : isWs c
        · rw [if_pos hc, if_pos hc]
          exact ih f2b rest (by omega) (by omega)
        · rw [if_neg hc, if_neg hc,
            ih f2b (rest.dropWhile (fun d => !isWs d)) (by omega) (by omega)]

theorem countTokensL_cons (c : Char) (rest : List Char) :
    countTokensL (c :: rest) =
      if isWs c then countTokensL rest
      else 1 + countTokensL (rest.dropWhile (fun d => !isWs d)) := by
  show countTokensGo (rest.length + 1) (c :: rest) = _
  simp only [countTokensGo]
  have hd := lengthDropWhileLe (fun d => !isWs d) rest
  by_cases hc : isWs c
  · rw [if_pos hc, if_pos hc]; rfl
  · rw [if_neg hc, if_neg hc,
      countTokensGo_fuel rest.length (rest.dropWhile (fun d => !isWs d)).length
        (rest.dropWhile (fun d => !isWs d)) (by omega) (by omega)]
    rfl

theorem collapseNLGo_fuel (f1 : Nat) : ∀ (f2 : Nat) (l : List Char),
    l.length ≤ f1 → l.length ≤ f2 → collapseNLGo f1 l = collapseNLGo f2 l := by
  induction f1 with
  | zero =>
    intro f2 l h1 _
    have hl : l = [] := List.length_eq_zero.mp (Nat.le_zero.mp h1)
    subst hl
    cases f2 <;> rfl
  | succ f ih =>
    intro f2 l h1 h2
    cases l with
    | nil => cases f2 <;> rfl
    | cons c rest =>
      cases f2 with
      | zero => simp at h2
      | succ f2b =>
        simp only [List.length_cons] at h1 h2
        simp only [collapseNLGo]
        by_cases hc : isWs c
        · rw [if_pos hc, if_pos hc]
          congr 1
          have hd : ((c :: rest).dropWhile isWs).length ≤ rest.length := by
            rw [List.dropWhile_cons_of_pos hc]
            exact lengthDropWhileLe isWs rest
          exact ih f2b ((c :: rest).dropWhile isWs) (by omega) (by omega)
        · rw [if_neg hc, if_neg hc, ih f2b rest (by omega) (by omega)]

theorem collapseNL_cons (c : Char) (rest : List Char) :
    collapseNL (c :: rest) =
      if isWs c then
        normRun ((c :: rest).takeWhile isWs) ++ collapseNL ((c :: rest).dropWhile isWs)
      else c :: collapseNL rest := by
  show collapseNLGo (rest.length + 1) (c :: rest) = _
  simp only [collapseNLGo]
  by_cases hc : isWs c
  · rw [if_pos hc, if_pos hc]
    congr 1
    have hd : ((c :: rest).dropWhile isWs).length ≤ rest.length := by
      rw [List.dropWhile_cons_of_pos hc]
      exact lengthDropWhileLe isWs rest
    exact collapseNLGo_fuel rest.length ((c :: rest).dropWhile isWs).length
      ((c :: rest).dropWhile isWs) (by omega) (by omega)
  · rw [if_neg hc, if_neg hc]
    rfl

/-- Induction following the recursion pattern of `collapseNL`. -/
theorem collapseNL_ind {P : List Char → Prop} (case1 : P [])
    (case2 : ∀ c rest, isWs c = true → P ((c :: rest).dropWhile isWs) → P (c :: rest))
    (case3 : ∀ c rest, isWs c = false → P rest → P (c :: rest)) :
    ∀ l, P l := by
  have key : ∀ n (l : List Char), l.length ≤ n → P l := by
    intro n
    induction n with
    | zero =>
      intro l h
      have hl : l = [] := List.length_eq_zero.mp (Nat.le_zero.mp h)
      subst hl
      exact case1
    | succ n ih =>
      intro l h
      cases l with
      | nil => exact case1
      | cons c rest =>
        simp only [List.length_cons] at h
        by_cases hc : isWs c
        · refine case2 c rest hc (ih _ ?_)
          rw [List.dropWhile_cons_of_pos hc]
          have := lengthDropWhileLe isWs rest
          omega
        · exact case3 c rest (by simpa using hc) (ih rest (by omega))
  exact fun l => key l.length l (Nat.le_refl _)

theorem collapseSPGo_fuel (f1 : Nat) : ∀ (f2 : Nat) (l : List Char),
    l.length ≤ f1 → l.length ≤ f2 → collapseSPGo f1 l = collapseSPGo f2 l := by
  induction f1 with
  | zero =>
    intro f2 l h1 _
    have hl : l = [] := List.length_eq_zero.mp (Nat.le_zero.mp h1)
    subst hl
    cases f2 <;> rfl
  | succ f ih =>
    intro f2 l h1 h2
    cases l with
    | nil => cases f2 <;> rfl
    | cons c rest =>
      cases f2 with
      | zero => simp at h2
      | succ f2b =>
        simp only [List.length_cons] at h1 h2
        simp only [collapseSPGo]
        have hd := lengthDropWhileLe isSpTab rest
        by_cases hc : isSpTab c
        · rw [if_pos hc, if_pos hc,
            ih f2b (rest.dropWhile isSpTab) (by omega) (by omega)]
        · rw [if_neg hc, if_neg hc, ih f2b rest (by omega) (by omega)]

theorem collapseSP_cons (c : Char) (rest : List Char) :
    collapseSP (c :: rest) =
      if isSpTab c then ' ' :: collapseSP (rest.dropWhile isSpTab)
      else c :: collapseSP rest := by
  show collapseSPGo (rest.length + 1) (c :: rest) = _
  simp only [collapseSPGo]
  have hd := lengthDropWhileLe isSpTab rest
  by_cases hc : isSpTab c
  · rw [if_pos hc, if_pos hc,
      collapseSPGo_fuel rest.length (rest.dropWhile isSpTab).length
        (rest.dropWhile isSpTab) (by omega) (by omega)]
    rfl
  · rw [if_neg hc, if_neg hc]
    rfl

/-- Induction following the recursion pattern of `collapseSP`. -/
theorem collapseSP_ind {P : List Char → Prop} (case1 : P [])
    (case2 : ∀ c rest, isSpTab c = true → P (rest.dropWhile isSpTab) → P (c :: rest))
    (case3 : ∀ c rest, isSpTab c = false → P rest → P (c :: rest)) :
    ∀ l, P l := by
  have key : ∀ n (l : List Char), l.length ≤ n → P l := by
    intro n
    induction n with
    | zero =>
      intro l h
      have hl : l = [] := List.length_eq_zero.mp (Nat.le_zero.mp h)
      subst hl
      exact case1
    | succ n ih =>
      intro n2 h
      cases n2 with
      | nil => exact case1
      | cons c rest =>
        simp only [List.length_cons] at h
        have hd := lengthDropWhileLe isSpTab rest
        by_cases hc : isSpTab c
        · exact case2 c rest hc (ih _ (by omega))
        · exact case3 c rest (by simpa using hc) (ih rest (by omega))
  exact fun l => key l.length l (Nat.le_refl _)

theorem headNotP_dropWhile (p : α → Bool) (l : List α) : headNotP p (l.dropWhile p) := by
  induction l with
  | nil => trivial
  | cons a l ih =>
    by_cases h : p a
    · simpa [List.dropWhile, h] using ih
    · simp [List.dropWhile, h, headNotP]

theorem dropWhile_of_headNot (p : α → Bool) (l : List α) (h : headNotP p l) :
    l.dropWhile p = l := by
  cases l with
  | nil => rfl
  | cons a l => simp only [headNotP] at h; simp [List.dropWhile, h]

theorem takeWhile_all (p : α → Bool) (l : List α) : (l.takeWhile p).all p := by
  induction l with
  | nil => rfl
  | cons a l ih =>
    by_cases h : p a
    · simp [List.takeWhile, h, ih]
    · simp [List.takeWhile, h]

theorem takeWhile_append_of_headNot (p : α → Bool) (A Y : List α)
    (hA : A.all p) (hY : headNotP p Y) : (A ++ Y).takeWhile p = A := by
  induction A with
  | nil =>
    cases Y with
    | nil => rfl
    | cons y t => simp only [headNotP] at hY; simp [List.takeWhile, hY]
  | cons a A2 ih =>
    simp only [List.all_cons, Bool.and_eq_true] at hA
    simp [List.takeWhile, hA.1, ih hA.2]

theorem dropWhile_append_of_headNot (p : α → Bool) (A Y : List α)
    (hA : A.all p) (hY : headNotP p Y) : (A ++ Y).dropWhile p = Y := by
  induction A with
  | nil => simpa using dropWhile_of_headNot p Y hY
  | cons a A2 ih =>
    simp only [List.all_cons, Bool.and_eq_true] at hA
    simp [List.dropWhile, hA.1, ih hA.2]

theorem headNot_of_ws (Y : List Char) (h : headNotP isWs Y) : headNotP isSpTab Y := by
  cases Y with
  | nil => trivial
  | cons y t =>
    simp only [headNotP, isWs, isSpTab, Bool.or_eq_false_iff,
      decide_eq_false_iff_not] at h ⊢
    tauto

theorem collapseSP_cons_not (c : Char) (t : List Char) (h : isSpTab c = false) :
    collapseSP (c :: t) = c :: collapseSP t := by
  rw [collapseSP_cons]; simp [h]

theorem collapseSP_append (A Y : List Char) (hY : headNotP isSpTab Y) :
    collapseSP (A ++ Y) = collapseSP A ++ collapseSP Y := by
  induction A using collapseSP_ind with
  | case1 => rfl
  | case2 c rest h ih =>
    have hd : (rest ++ Y).dropWhile isSpTab = rest.dropWhile isSpTab ++ Y := by
      rw [← List.takeWhile_append_dropWhile isSpTab rest, List.append_assoc,
        dropWhile_append_of_headNot isSpTab _ _ (takeWhile_all _ _)]
      · rw [List.takeWhile_append_dropWhile]
      · cases hR : rest.dropWhile isSpTab with
        | nil => simpa [hR] using hY
        | cons r t =>
          have := headNotP_dropWhile isSpTab rest
          rw [hR] at this
          simpa [headNotP] using this
    rw [List.cons_append, collapseSP_cons]
    simp only [h, if_true]
    rw [hd, ih, collapseSP_cons]
    simp [h]
  | case3 c rest h ih =>
    rw [List.cons_append, collapseSP_cons_not c _ (by simpa using h),
      collapseSP_cons_not c _ (by simpa using h), ih]
    simp

theorem collapseSP_ne_nil (A : List Char) (h : A ≠ []) : collapseSP A ≠ [] := by
  cases A with
  | nil => exact absurd rfl h
  | cons c t => by_cases hc : isSpTab c <;> rw [collapseSP_cons] <;> simp [hc]

theorem collapseSP_allWs (W : List Char) (h : W.all isWs) : (collapseSP W).all isWs := by
  induction W using collapseSP_ind with
  | case1 => rfl
  | case2 c rest hc ih =>
    simp only [List.all_cons, Bool.and_eq_true] at h
    rw [collapseSP_cons]
    simp only [hc, if_true, List.all_cons, Bool.and_eq_true]
    refine ⟨by simp [isWs], ih ?_⟩
    have : rest = rest.takeWhile isSpTab ++ rest.dropWhile isSpTab :=
      (List.takeWhile_append_dropWhile _ _).symm
    have h2 := h.2
    rw [this, List.all_append, Bool.and_eq_true] at h2
    exact h2.2
  | case3 c rest hc ih =>
    simp only [List.all_cons, Bool.and_eq_true] at h
    rw [collapseSP_cons_not c _ (by simpa using hc)]
    simp [h.1, ih h.2]

theorem countNL_append (a b : List Char) : countNL (a ++ b) = countNL a + countNL b := by
  simp [countNL]

theorem countNL_of_all_sptab (l : List Char) (h : l.all isSpTab) : countNL l = 0 := by
  induction l with
  | nil => rfl
  | cons c t ih =>
    simp only [List.all_cons, Bool.and_eq_true] at h
    have : c ≠ '\n' := by
      rcases Bool.or_eq_true_iff.mp h.1 with h1 | h1 <;>
        simp only [decide_eq_true_eq] at h1 <;> simp [h1]
    simp only [countNL, List.filter] at *
    simp [this, ih h.2]

theorem countNL_collapseSP (W : List Char) : countNL (collapseSP W) = countNL W := by
  induction W using collapseSP_ind with
  | case1 => rfl
  | case2 c rest hc ih =>
    rw [collapseSP_cons]; simp only [hc, if_true]
    have hsplit : rest = rest.takeWhile isSpTab ++ rest.dropWhile isSpTab :=
      (List.takeWhile_append_dropWhile _ _).symm
    have hcnl : countNL (c :: rest) =
        countNL [c] + countNL (rest.takeWhile isSpTab) + countNL (rest.dropWhile isSpTab) := by
      conv_lhs => rw [show c :: rest = [c] ++ rest from rfl, hsplit]
      rw [← List.append_assoc, countNL_append, countNL_append]
    have h1 : countNL [c] = 0 := countNL_of_all_sptab [c] (by simp [hc])
    have h2 : countNL (rest.takeWhile isSpTab) = 0 :=
      countNL_of_all_sptab _ (takeWhile_all _ _)
    have h3 : countNL (' ' :: collapseSP (rest.dropWhile isSpTab)) =
        countNL [' '] + countNL (collapseSP (rest.dropWhile isSpTab)) := by
      rw [show (' ' :: collapseSP (rest.dropWhile isSpTab)) =
        [' '] ++ collapseSP (rest.dropWhile isSpTab) from rfl, countNL_append]
    rw [h3, ih, hcnl, h1, h2]
    simp [countNL, List.filter]
  | case3 c rest hc ih =>
    rw [collapseSP_cons_not c _ (by simpa using hc)]
    have h4 : ∀ t : List Char, countNL (c :: t) = countNL [c] + countNL t := by
      intro t
      rw [show (c :: t) = [c] ++ t from rfl, countNL_append]
    rw [h4 (collapseSP rest), h4 rest, ih]

theorem mem_takeWhile_mem (p : α → Bool) (l : List α) (x : α)
    (h : x ∈ l.takeWhile p) : x ∈ l := by
  induction l with
  | nil => simpa [List.takeWhile] using h
  | cons a t ih =>
    by_cases hp : p a
    · rw [List.takeWhile_cons_of_pos hp] at h
      rcases List.mem_cons.mp h with h1 | h1
      · simp [h1]
      · exact List.mem_cons_of_mem _ (ih h1)
    · simp [List.takeWhile_cons_of_neg hp] at h

theorem countNL_cons (c : Char) (t : List Char) :
    countNL (c :: t) = (if c = '\n' then 1 else 0) + countNL t := by
  by_cases h : c = '\n' <;> simp [countNL, List.filter, h] <;> omega

theorem countNL_of_all_notNl (l : List Char) (h : ∀ x ∈ l, x ≠ '\n') :
    countNL l = 0 := by
  induction l with
  | nil => rfl
  | cons c t ih =>
    have hc : c ≠ '\n' := h c (by simp)
    rw [countNL_cons]
    simp only [hc, if_false]
    simpa using ih (fun x hx => h x (List.mem_cons_of_mem _ hx))

theorem countNL_runPre (w : List Char) : countNL (runPre w) = 0 := by
  refine countNL_of_all_notNl _ (fun x hx => ?_)
  have := List.takeWhile_subset (l := w) (p := fun c => c ≠ '\n')
  have hall := takeWhile_all (fun c : Char => c ≠ '\n') w
  rw [List.all_eq_true] at hall
  simpa using hall x hx

theorem countNL_runPost (w : List Char) : countNL (runPost w) = 0 := by
  refine countNL_of_all_notNl _ (fun x hx => ?_)
  rw [runPost, List.mem_reverse] at hx
  have hall := takeWhile_all (fun c : Char => c ≠ '\n') w.reverse
  rw [List.all_eq_true] at hall
  simpa using hall x hx

theorem countNL_normRun_le (w : List Char) : countNL (normRun w) ≤ 2 := by
  rw [normRun]
  by_cases h : 3 ≤ countNL w
  · simp only [h, if_true]
    rw [countNL_append, countNL_runPre, countNL_cons, countNL_cons, countNL_runPost]
    simp
  · simp only [h, if_false]
    omega

theorem normRun_allWs (w : List Char) (h : w.all isWs) : (normRun w).all isWs := by
  rw [List.all_eq_true] at h
  rw [normRun]
  by_cases h3 : 3 ≤ countNL w
  · simp only [h3, if_true, List.all_append, List.all_cons, Bool.and_eq_true]
    refine ⟨?_, by simp [isWs], by simp [isWs], ?_⟩
    · rw [List.all_eq_true]
      exact fun x hx => h x (mem_takeWhile_mem _ _ _ hx)
    · rw [List.all_eq_true]
      intro x hx
      rw [runPost, List.mem_reverse] at hx
      exact h x (by simpa using mem_takeWhile_mem _ _ _ hx)
  · simp only [h3, if_false]
    rw [List.all_eq_true]
    exact h

theorem normRun_ne_nil (w : List Char) (h : w ≠ []) : normRun w ≠ [] := by
  rw [normRun]
  by_cases h3 : 3 ≤ countNL w
  · simp [h3]
  · simpa [h3] using h

theorem collapseNL_cons_ws (c : Char) (t : List Char) (h : isWs c = true) :
    collapseNL (c :: t) =
      normRun ((c :: t).takeWhile isWs) ++ collapseNL ((c :: t).dropWhile isWs) := by
  rw [collapseNL_cons]
  simp [h]

theorem collapseNL_cons_not (c : Char) (t : List Char) (h : isWs c = false) :
    collapseNL (c :: t) = c :: collapseNL t := by
  rw [collapseNL_cons]
  simp [h]

theorem collapseNL_ne_nil (l : List Char) (h : l ≠ []) : collapseNL l ≠ [] := by
  cases l with
  | nil => exact absurd rfl h
  | cons c t =>
    by_cases hc : isWs c
    · rw [collapseNL_cons_ws c t hc]
      have : (c :: t).takeWhile isWs = c :: t.takeWhile isWs :=
        List.takeWhile_cons_of_pos hc
      have hne : (c :: t).takeWhile isWs ≠ [] := by simp [this]
      have := normRun_ne_nil _ hne
      intro hx
      rcases List.append_eq_nil.mp hx with ⟨h1, _⟩
      exact this h1
    · rw [collapseNL_cons_not c t (by simpa using hc)]
      simp

theorem headNot_collapseNL (Y : List Char) (h : headNotP isWs Y) :
    headNotP isWs (collapseNL Y) := by
  cases Y with
  | nil =>
    have hnil : collapseNL [] = [] := rfl
    rw [hnil]; trivial
  | cons y t =>
    simp only [headNotP] at h
    rw [collapseNL_cons_not y t h]
    simpa [headNotP] using h

theorem headNot_collapseSP_ws (Y : List Char) (h : headNotP isWs Y) :
    headNotP isWs (collapseSP Y) := by
  cases Y with
  | nil =>
    have hnil : collapseSP [] = [] := rfl
    rw [hnil]; trivial
  | cons y t =>
    simp only [headNotP] at h
    have hsp : isSpTab y = false := by
      rcases Bool.or_eq_false_iff.mp (by
        simpa [isWs] using h : ((decide (y = ' ') || decide (y = '\t')
          || decide (y = '\n') || decide (y = '\x0d') || decide (y = '\x0b'))
          || decide (y = '\x0c')) = false) with ⟨h1, _⟩
      rcases Bool.or_eq_false_iff.mp h1 with ⟨h2, _⟩
      rcases Bool.or_eq_false_iff.mp h2 with ⟨h3, _⟩
      rcases Bool.or_eq_false_iff.mp h3 with ⟨h4, h5⟩
      simp [isSpTab, h4, h5]
    rw [collapseSP_cons_not y t hsp]
    simpa [headNotP] using h

theorem headNot_collapseSP_sptab (Y : List Char) (h : headNotP isSpTab Y) :
    headNotP isSpTab (collapseSP Y) := by
  cases Y with
  | nil =>
    have hnil : collapseSP [] = [] := rfl
    rw [hnil]; trivial
  | cons y t =>
    simp only [headNotP] at h
    rw [collapseSP_cons_not y t h]
    simpa [headNotP] using h

theorem collapseNL_wsRun_append (W Y : List Char) (hall : W.all isWs)
    (hcnt : countNL W ≤ 2) (hY : headNotP isWs Y) :
    collapseNL (W ++ Y) = W ++ collapseNL Y := by
  cases W with
  | nil => simp
  | cons w W2 =>
    have hw : isWs w = true := by
      simp only [List.all_cons, Bool.and_eq_true] at hall
      exact hall.1
    rw [List.cons_append, collapseNL_cons_ws w (W2 ++ Y) hw]
    have htake : (w :: (W2 ++ Y)).takeWhile isWs = w :: W2 := by
      rw [show w :: (W2 ++ Y) = (w :: W2) ++ Y from rfl]
      exact takeWhile_append_of_headNot isWs _ _ hall hY
    have hdrop : (w :: (W2 ++ Y)).dropWhile isWs = Y := by
      rw [show w :: (W2 ++ Y) = (w :: W2) ++ Y from rfl]
      exact dropWhile_append_of_headNot isWs _ _ hall hY
    rw [htake, hdrop, normRun]
    simp only [Nat.not_le.mpr (Nat.lt_succ_of_le hcnt), if_false]

theorem sptab_imp_ws (c : Char) (h : isSpTab c = true) : isWs c = true := by
  rcases Bool.or_eq_true_iff.mp h with h1 | h1 <;>
    simp only [decide_eq_true_eq] at h1 <;> simp [isWs, h1]

theorem notWs_notSpTab (c : Char) (h : isWs c = false) : isSpTab c = false := by
  by_cases hs : isSpTab c
  · rw [sptab_imp_ws c hs] at h; exact absurd h (by simp)
  · simpa using hs

/-- The space-collapsed image of a newline-collapsed string is a fixed
point of the newline collapse: collapsing spaces never re-creates a run of
three newlines. -/
theorem collapseNL_fix_SP (S : List Char) :
    collapseNL (collapseSP (collapseNL S)) = collapseSP (collapseNL S) := by
  induction S using collapseNL_ind with
  | case1 => rfl
  | case2 c rest h ih =>
    rw [collapseNL_cons_ws c rest h]
    have hW_all : ((c :: rest).takeWhile isWs).all isWs := takeWhile_all _ _
    have hW_ne : (c :: rest).takeWhile isWs ≠ [] := by
      rw [List.takeWhile_cons_of_pos h]; simp
    have hR_head : headNotP isWs ((c :: rest).dropWhile isWs) := headNotP_dropWhile _ _
    have hN_all := normRun_allWs _ hW_all
    have hN_ne := normRun_ne_nil _ hW_ne
    have hN_cnt := countNL_normRun_le ((c :: rest).takeWhile isWs)
    have hZ_head := headNot_collapseNL _ hR_head
    rw [collapseSP_append _ _ (headNot_of_ws _ hZ_head)]
    have hN2_all := collapseSP_allWs _ hN_all
    have hN2_ne := collapseSP_ne_nil _ hN_ne
    have hN2_cnt : countNL (collapseSP (normRun ((c :: rest).takeWhile isWs))) ≤ 2 := by
      rw [countNL_collapseSP]; exact hN_cnt
    have hZ2_head := headNot_collapseSP_ws _ hZ_head
    rw [collapseNL_wsRun_append _ _ hN2_all hN2_cnt hZ2_head, ih]
  | case3 c rest h ih =>
    have hns : isSpTab c = false := notWs_notSpTab c (by simpa using h)
    rw [collapseNL_cons_not c rest (by simpa using h),
      collapseSP_cons_not c _ hns,
      collapseNL_cons_not c _ (by simpa using h), ih]

theorem collapseSP_idem (l : List Char) :
    collapseSP (collapseSP l) = collapseSP l := by
  induction l using collapseSP_ind with
  | case1 => rfl
  | case2 c rest h ih =>
    rw [collapseSP_cons]
    simp only [h, if_true]
    have hhead := headNot_collapseSP_sptab _ (headNotP_dropWhile isSpTab rest)
    rw [collapseSP_cons, if_pos (show isSpTab ' ' = true by decide),
      dropWhile_of_headNot _ _ hhead, ih]
  | case3 c rest h ih =>
    rw [collapseSP_cons_not c rest (by simpa using h),
      collapseSP_cons_not c _ (by simpa using h), ih]

theorem headNot_append_left (p : α → Bool) (X B : List α) (hx : X ≠ [])
    (h : headNotP p X) : headNotP p (X ++ B) := by
  cases X with
  | nil => exact absurd rfl hx
  | cons x t => simpa [headNotP] using h

theorem headNot_append_elim (p : α → Bool) (X B : List α) (hx : X ≠ [])
    (h : headNotP p (X ++ B)) : headNotP p X := by
  cases X with
  | nil => exact absurd rfl hx
  | cons x t => simpa [headNotP] using h

theorem lastNot_append_intro (p : α → Bool) (A Y : List α) (hy : Y ≠ [])
    (h : lastNotP p Y) : lastNotP p (A ++ Y) := by
  rw [lastNotP, List.reverse_append]
  exact headNot_append_left p _ _ (by simpa using hy) h

theorem lastNot_append_elim (p : α → Bool) (A Y : List α) (hy : Y ≠ [])
    (h : lastNotP p (A ++ Y)) : lastNotP p Y := by
  rw [lastNotP, List.reverse_append] at h
  exact headNot_append_elim p _ _ (by simpa using hy) h

theorem lastNot_cons_intro (p : α → Bool) (c : α) (l : List α) (hl : l ≠ [])
    (h : lastNotP p l) : lastNotP p (c :: l) :=
  lastNot_append_intro p [c] l hl h

theorem lastNot_cons_elim (p : α → Bool) (c : α) (l : List α) (hl : l ≠ [])
    (h : lastNotP p (c :: l)) : lastNotP p l :=
  lastNot_append_elim p [c] l hl h

theorem lastNot_single (p : α → Bool) (c : α) (h : p c = false) :
    lastNotP p [c] := by
  simpa [lastNotP, headNotP] using h

theorem lastNot_single_elim (p : α → Bool) (c : α) (h : lastNotP p [c]) :
    p c = false := by
  simpa [lastNotP, headNotP] using h

theorem lastNot_all_absurd (p : α → Bool) (l : List α) (hl : l ≠ [])
    (hall : l.all p) (h : lastNotP p l) : False := by
  rcases List.eq_nil_or_concat l with h1 | ⟨t, x, h1⟩
  · exact hl h1
  · subst h1
    rw [List.concat_eq_append] at h hall
    rw [lastNotP, List.reverse_append] at h
    simp only [List.reverse_cons, List.reverse_nil, List.nil_append,
      List.cons_append, headNotP] at h
    rw [List.all_append] at hall
    simp only [List.all_cons, Bool.and_eq_true] at hall
    rw [hall.2.1] at h
    exact absurd h (by simp)

theorem lastNot_collapseNL (l : List Char) (h : lastNotP isWs l) :
    lastNotP isWs (collapseNL l) := by
  induction l using collapseNL_ind with
  | case1 =>
    have hnil : collapseNL [] = [] := rfl
    rw [hnil]; exact h
  | case2 c rest hc ih =>
    rw [collapseNL_cons_ws c rest hc]
    have hsplit : c :: rest =
        (c :: rest).takeWhile isWs ++ (c :: rest).dropWhile isWs :=
      (List.takeWhile_append_dropWhile _ _).symm
    have hW_ne : (c :: rest).takeWhile isWs ≠ [] := by
      rw [List.takeWhile_cons_of_pos hc]; simp
    by_cases hR : (c :: rest).dropWhile isWs = []
    · exfalso
      rw [hsplit, hR, List.append_nil] at h
      exact lastNot_all_absurd isWs _ hW_ne (takeWhile_all _ _) h
    · have hlast : lastNotP isWs ((c :: rest).dropWhile isWs) := by
        rw [hsplit] at h
        exact lastNot_append_elim _ _ _ hR h
      exact lastNot_append_intro _ _ _ (collapseNL_ne_nil _ hR) (ih hlast)
  | case3 c rest hc ih =>
    rw [collapseNL_cons_not c rest (by simpa using hc)]
    by_cases hr : rest = []
    · subst hr
      have hnil : collapseNL ([] : List Char) = [] := rfl
      rw [hnil]
      exact lastNot_single _ _ (lastNot_single_elim _ _ h)
    · have hlast := lastNot_cons_elim isWs c rest hr h
      exact lastNot_cons_intro _ _ _ (collapseNL_ne_nil _ hr) (ih hlast)

theorem collapseSP_nil : collapseSP [] = [] := rfl

theorem lastNot_collapseSP (l : List Char) (h : lastNotP isWs l) :
    lastNotP isWs (collapseSP l) := by
  induction l using collapseSP_ind with
  | case1 => rw [collapseSP_nil]; exact h
  | case2 c rest hc ih =>
    rw [collapseSP_cons]
    simp only [hc, if_true]
    by_cases hr : rest = []
    · exfalso
      subst hr
      exact absurd (lastNot_single_elim _ _ h)
        (by simp [sptab_imp_ws c hc])
    · have hlrest := lastNot_cons_elim isWs c rest hr h
      by_cases hR : rest.dropWhile isSpTab = []
      · exfalso
        have hall : rest.all isWs := by
          rw [List.all_eq_true]
          intro x hx
          have : rest.takeWhile isSpTab = rest := by
            rw [← List.takeWhile_append_dropWhile isSpTab rest, hR, List.append_nil,
              List.takeWhile_idem]
          rw [← this] at hx
          exact sptab_imp_ws x
            (by simpa using (List.all_eq_true.mp (takeWhile_all isSpTab rest)) x hx)
        exact lastNot_all_absurd isWs rest hr hall hlrest
      · have hlR : lastNotP isWs (rest.dropWhile isSpTab) := by
          rw [← List.takeWhile_append_dropWhile isSpTab rest] at hlrest
          exact lastNot_append_elim _ _ _ hR hlrest
        exact lastNot_cons_intro _ _ _ (collapseSP_ne_nil _ hR) (ih hlR)
  | case3 c rest hc ih =>
    rw [collapseSP_cons_not c rest (by simpa using hc)]
    by_cases hr : rest = []
    · subst hr
      rw [collapseSP_nil]
      exact lastNot_single _ _ (lastNot_single_elim _ _ h)
    · have hlast := lastNot_cons_elim isWs c rest hr h
      exact lastNot_cons_intro _ _ _ (collapseSP_ne_nil _ hr) (ih hlast)

theorem headNot_pyStrip (l : List Char) : headNotP isWs (pyStripL l) := by
  rw [pyStripL]
  cases hx : ((l.dropWhile isWs).reverse.dropWhile isWs).reverse with
  | nil => trivial
  | cons y t =>
    have h1 : headNotP isWs (l.dropWhile isWs) := headNotP_dropWhile _ _
    have h2 : ∃ s, (l.dropWhile isWs).reverse =
        s ++ (l.dropWhile isWs).reverse.dropWhile isWs :=
      ⟨_, (List.takeWhile_append_dropWhile _ _).symm⟩
    rcases h2 with ⟨s, hs⟩
    have h3 : l.dropWhile isWs =
        ((l.dropWhile isWs).reverse.dropWhile isWs).reverse ++ s.reverse := by
      have := congrArg List.reverse hs
      rwa [List.reverse_reverse, List.reverse_append] at this
    rw [h3, hx] at h1
    simpa [headNotP] using h1

theorem lastNot_pyStrip (l : List Char) : lastNotP isWs (pyStripL l) := by
  rw [lastNotP, pyStripL, List.reverse_reverse]
  exact headNotP_dropWhile _ _

theorem pyStripL_of_fixed (l : List Char) (h1 : headNotP isWs l)
    (h2 : lastNotP isWs l) : pyStripL l = l := by
  rw [pyStripL, dropWhile_of_headNot _ _ h1, dropWhile_of_headNot _ _ h2,
    List.reverse_reverse]

theorem whitespace_collapseL_idem (l : List Char) :
    whitespace_collapseL (whitespace_collapseL l) = whitespace_collapseL l := by
  rw [whitespace_collapseL, whitespace_collapseL]
  have hhead : headNotP isWs (whitespace_collapseL l) :=
    headNot_collapseSP_ws _ (headNot_collapseNL _ (headNot_pyStrip l))
  have hlast : lastNotP isWs (whitespace_collapseL l) :=
    lastNot_collapseSP _ (lastNot_collapseNL _ (lastNot_pyStrip l))
  rw [show collapseSP (collapseNL (pyStripL l)) = whitespace_collapseL l from rfl,
    pyStripL_of_fixed _ hhead hlast, whitespace_collapseL,
    collapseNL_fix_SP, collapseSP_idem]

/-! ### Claim theorems -/
/-- Claim C8: in heuristic mode, with exclusion patterns checked before
inclusion patterns, `https://example.com/tag/foo` is rejected,
`https://example.com/2024/03/15/my-post/` is accepted,
`https://example.com/` (empty path) is rejected; the fourth conjunct
shows a url matching both an exclusion and an inclusion pattern being
rejected (first exclusion match short-circuits). -/
theorem claim_C8_heuristic_examples :
    is_valid_blog_link_heuristic "https://example.com/tag/foo" = false ∧
    is_valid_blog_link_heuristic "https://example.com/2024/03/15/my-post/" = true ∧
    is_valid_blog_link_heuristic "https://example.com/" = false ∧
    is_valid_blog_link_heuristic "https://example.com/tag/foo/2024/03/15/x/" = false := by
  decide

/-- Claim C9, counterexample: `TextNormalizer.normalize`
(`_clean_and_convert_to_markdown`) is not idempotent — a short
all-uppercase line is promoted to `## Hello World`, and a second
application promotes that line again to `### ## Hello World`. -/
theorem claim_C9_counterexample :
    clean_and_convert_to_markdown "HELLO WORLD" = "## Hello World" ∧
    clean_and_convert_to_markdown (clean_and_convert_to_markdown "HELLO WORLD") =
      "### ## Hello World" ∧
    clean_and_convert_to_markdown (clean_and_convert_to_markdown "HELLO WORLD") ≠
      clean_and_convert_to_markdown "HELLO WORLD" := by
  decide

/-- Claim C9, amended: the whitespace-collapsing core of normalize (its
strip, newline-run collapse and space-run collapse, without the header
promotion) is idempotent on every input. -/
theorem claim_C9_whitespace_collapse_idem (s : String) :
    whitespace_collapse (whitespace_collapse s) = whitespace_collapse s := by
  unfold whitespace_collapse
  exact congrArg (fun l => (⟨l⟩ : String))
    (whitespace_collapseL_idem s.data)

/-- Claim C5: on a 12-page document whose first page carries the three
dot-leader lines `Introduction .... 1`, `Chapter Two .... 5`,
`Chapter Three .... 9`, TOC detection finds exactly those three entries
(sorted by target page), the induced spans run 1-4, 5-8 and 9-12
(0-based: 0-4, 4-8, 8-12), and `scrape_pdf` emits exactly three items via
the TOC strategy, the last one holding the text of pages 9-12. -/
theorem claim_C5_toc_chunking :
    detect_toc pagesC5 =
      .ok [("Introduction", 0), ("Chapter Two", 4), ("Chapter Three", 8)] ∧
    tocSpans [("Introduction", 0), ("Chapter Two", 4), ("Chapter Three", 8)]
        pagesC5.length =
      [("Introduction", 0, 4), ("Chapter Two", 4, 8), ("Chapter Three", 8, 12)] ∧
    (scrape_pdf (some pagesC5) "book.pdf" "").map (fun it => it.title) =
      ["Introduction", "Chapter Two", "Chapter Three"] ∧
    ((scrape_pdf (some pagesC5) "book.pdf" "").getLast?).map (fun it => it.content) =
      (extract_text_range pagesC5 8 12).toOption.map
        (fun l => clean_and_convert_to_markdown ⟨l⟩) := by
  decide

/-- Claim C6, counterexample: `pagesC6`'s only chunk has 62 raw characters
(passing the 50-character gate, which the code applies to the raw text)
but its normalized content `### a b` has only 7 characters, and the item
is emitted anyway: the 50-character threshold does not hold of the
normalized content. -/
theorem claim_C6_counterexample :
    (scrape_pdf (some pagesC6) "f.pdf" "").map (fun it => it.content) = ["### a b"] ∧
    ("### a b" : String).length < 50 := by
  decide

/-- Claim C2, counterexample: the item `scrape_pdf` emits for `pagesC6`
carries no `word_count` key at all (modelled as `none`), while its
content has three whitespace-delimited tokens — so its `word_count` does
not equal the token count of its content. -/
theorem claim_C2_counterexample :
    (scrape_pdf (some pagesC6) "f.pdf" "").map (fun it => it.word_count) = [none] ∧
    (scrape_pdf (some pagesC6) "f.pdf" "").map (fun it => countTokens it.content) =
      [3] := by
  decide

/-- Claim C10, counterexample: on `pagesC10` the TOC loop extracts two
sections and then hits an `extract_text` failure on page 12; the caught
exception makes `scrape_pdf` return the two accumulated items — an
internal failure does not yield the empty list. -/
theorem claim_C10_counterexample :
    (scrape_pdf (some pagesC10) "doc.pdf" "").length = 2 ∧
    pagesC10.get? 11 = some (.error ()) ∧
    scrape_pdf (some pagesC10) "doc.pdf" "" ≠ [] := by
  decide

/-- Claim C1, counterexample: on `inputsC1` strategy 1 yields a 40-word
attempt and strategy 3 a 120-word attempt, but strategy 2 yields 200
words, so the chosen attempt has word count 200, not 120. -/
theorem claim_C1_counterexample :
    (attempt1 inputsC1).map (fun a => a.word_count) = some 40 ∧
    (attempt3 inputsC1).map (fun a => a.word_count) = some 120 ∧
    ((chooseBest inputsC1).1).map (fun a => a.word_count) = some 200 ∧
    ((chooseBest inputsC1).1).map (fun a => a.word_count) ≠ some 120 := by
  decide

/-- Claim C3, counterexample: when the configured Gemini call raises,
`_is_valid_blog_link` returns `False` instead of the heuristic answer
(which accepts this url), and the bulk-crawl classification never
consults the heuristic at all: with no model configured every discovered
link is rejected, even one the heuristic accepts whose scrape would have
succeeded. -/
theorem claim_C3_counterexample :
    is_valid_blog_link .raised "https://example.com/blog/post1" "example.com" = false ∧
    is_valid_blog_link_heuristic "https://example.com/blog/post1" = true ∧
    bulk_scrape_with_links bulkC3 1 5 false = [] := by
  refine ⟨rfl, by decide, ?_⟩
  decide

theorem bulkLoop_gemini_false (i : BulkInputs) (h : i.geminiModel = false) :
    ∀ (links processed : List String) (acc : List ScrapedContent),
      bulkLoop i links processed acc = acc := by
  intro links
  induction links with
  | nil => intro p a; rfl
  | cons link rest ih =>
    intro p a
    simp only [bulkLoop, h]
    by_cases hm : link ∈ p
    · simp [hm, ih]
    · simp [hm, ih, Option.getD]

/-- Claim C3, amended: the single-link classifier falls through to the
heuristic when the model is absent or its response fails to parse, but a
raising call returns `False` (not the heuristic answer); the bulk-crawl
classification has no heuristic fallback at all — with no model
configured every discovered link is rejected, so a bulk scrape that does
not include the seed returns nothing. -/
theorem claim_C3_classifier_fallback :
    (∀ url bd, is_valid_blog_link .unavailable url bd = is_valid_blog_link_heuristic url) ∧
    (∀ url bd, is_valid_blog_link (.resp none) url bd = is_valid_blog_link_heuristic url) ∧
    (∀ url bd, is_valid_blog_link .raised url bd = false) ∧
    (∀ (i : BulkInputs) (md ml : Nat), i.geminiModel = false →
      bulk_scrape_with_links i md ml false = []) := by
  refine ⟨fun _ _ => rfl, fun _ _ => rfl, fun _ _ => rfl, ?_⟩
  intro i md ml h
  simp only [bulk_scrape_with_links]
  split
  · cases hf : i.seedFetch with
    | none => rfl
    | some hrefs => exact bulkLoop_gemini_false i h _ _ _
  · rfl

/-- Claim C3, witness instantiating the amended theorem: the heuristic
fallback equalities at a concrete url, and a concrete no-model bulk
scrape returning nothing. -/
theorem claim_C3_classifier_fallback_witness :
    is_valid_blog_link .unavailable "https://example.com/blog/post1" "example.com" =
      is_valid_blog_link_heuristic "https://example.com/blog/post1" ∧
    bulk_scrape_with_links bulkC3 1 5 false = [] :=
  ⟨claim_C3_classifier_fallback.1 _ _,
   claim_C3_classifier_fallback.2.2.2 bulkC3 1 5 rfl⟩

theorem bulkLoop_length (i : BulkInputs) :
    ∀ (links processed : List String) (acc : List ScrapedContent),
      (bulkLoop i links processed acc).length ≤ acc.length + links.length := by
  intro links
  induction links with
  | nil => intro p a; simp [bulkLoop]
  | cons link rest ih =>
    intro p a
    simp only [bulkLoop, List.length_cons]
    by_cases hm : link ∈ p
    · simp only [hm, if_true]
      have := ih p a
      omega
    · simp only [hm, if_false]
      cases hcl : (if i.geminiModel then i.classify link else ClassifyOut.ok none) with
      | raised => simp only [hcl]; omega
      | ok r =>
        simp only [hcl]
        by_cases hr : r.getD false
        · rw [if_pos hr]
          cases hls : i.linkScrape link (inferContentType link) with
          | none => simp only [hls]; have := ih p a; omega
          | some item =>
            simp only [hls]
            have := ih (link :: p) (a ++ [item])
            simp only [List.length_append, List.length_cons, List.length_nil]
              at this ⊢
            omega
        · rw [if_neg hr]
          have := ih p a; omega

theorem bulkLoop_congr (i : BulkInputs) (c2 : String → ClassifyOut) :
    ∀ (links processed : List String) (acc : List ScrapedContent),
      (∀ l ∈ links, i.classify l = c2 l) →
      bulkLoop { i with classify := c2 } links processed acc =
        bulkLoop i links processed acc := by
  intro links
  induction links with
  | nil => intro p a _; rfl
  | cons link rest ih =>
    intro p a hagree
    have h1 : i.classify link = c2 link := hagree link (by simp)
    have h2 : ∀ l ∈ rest, i.classify l = c2 l :=
      fun l hl => hagree l (List.mem_cons_of_mem _ hl)
    simp only [bulkLoop, ← h1]
    by_cases hm : link ∈ p
    · simp [hm, ih _ _ h2]
    · simp only [hm, if_false]
      cases hcl : (if i.geminiModel then i.classify link else ClassifyOut.ok none) with
      | raised => simp only [hcl]
      | ok r =>
        simp only [hcl]
        by_cases hr : r.getD false
        · simp only [if_pos hr]
          cases hls : i.linkScrape link (inferContentType link) with
          | none => simp only [hls]; exact ih _ _ h2
          | some item => simp only [hls]; exact ih _ _ h2
        · simp only [if_neg hr]
          exact ih _ _ h2

/-- Claim C4: with `max_links = 5` and `include_base_url = true` on a
seed page carrying 20 de-duplicated discoverable links, a bulk scrape
returns at most six items (at most one for the seed plus at most five for
links); moreover the outcome only depends on the classifier's answers on
the first five de-duplicated links — the truncation happens before any
classification. -/
theorem bulkSeed_length (i : BulkInputs) (ib : Bool) :
    (bulkSeed i ib).1.length ≤ 1 := by
  rcases ib <;> rcases hs : i.seedScrape <;> simp [bulkSeed, hs]

/-- Claim C4: with `max_links = 5` and `include_base_url = true` on a
seed page carrying 20 de-duplicated discoverable links, a bulk scrape
returns at most six items (at most one for the seed plus at most five for
links); moreover the outcome only depends on the classifier's answers on
the first five de-duplicated links — the truncation happens before any
classification. -/
theorem claim_C4_truncation_bound (i : BulkInputs) (md : Nat) (hrefs : List String)
    (hf : i.seedFetch = some hrefs) (hn : (dedupKeepOrder hrefs).length = 20) :
    (bulk_scrape_with_links i md 5 true).length ≤ 6 ∧
    (∀ c2 : String → ClassifyOut,
      (∀ l ∈ (dedupKeepOrder hrefs).take 5, i.classify l = c2 l) →
      bulk_scrape_with_links { i with classify := c2 } md 5 true =
        bulk_scrape_with_links i md 5 true) := by
  have hseed := bulkSeed_length i true
  constructor
  · simp only [bulk_scrape_with_links, hf]
    split
    · have hb := bulkLoop_length i ((dedupKeepOrder hrefs).take 5)
        (bulkSeed i true).2 (bulkSeed i true).1
      have ht : ((dedupKeepOrder hrefs).take 5).length ≤ 5 := by
        simp [List.length_take]
      omega
    · omega
  · intro c2 hagree
    obtain ⟨url, gm, ss, sf, cl, ls⟩ := i
    have hf2 : sf = some hrefs := hf
    subst hf2
    simp only [bulk_scrape_with_links]
    split
    · exact bulkLoop_congr ⟨url, gm, ss, some hrefs, cl, ls⟩ c2 _ _ _ hagree
    · rfl

/-- Claim C4, witness: the bound and the classifier-restriction
equality instantiated on a concrete seed page with 20 discovered links. -/
theorem claim_C4_truncation_bound_witness :
    (bulk_scrape_with_links bulkC4 1 5 true).length ≤ 6 ∧
    bulk_scrape_with_links
        { bulkC4 with classify := fun _ => ClassifyOut.ok (some true) } 1 5 true =
      bulk_scrape_with_links bulkC4 1 5 true :=
  ⟨(claim_C4_truncation_bound bulkC4 1 hrefsC4 rfl (by decide)).1,
   (claim_C4_truncation_bound bulkC4 1 hrefsC4 rfl (by decide)).2 _ (fun _ _ => rfl)⟩

/-- Claim C7: when none of the four strategies produces an attempt,
`scrape_url` fails with an `ExtractionFailed` error carrying the
accumulated tried-method list and returns no record; the list is empty
exactly because a method is recorded as tried only when it yields an
attempt. -/
theorem claim_C7_extraction_failed (i : UrlInputs) (ct : String)
    (h1 : attempt1 i = none) (h2 : attempt2 i = none) (h3 : attempt3 i = none)
    (h4 : attempt4raw i = none) :
    scrape_url i ct = .error (.extractionFailed (chooseBest i).2) ∧
    (chooseBest i).2 = [] := by
  have hb : best3 i = none := by
    unfold best3; rw [h1, h2, h3]; rfl
  have hcb : chooseBest i = (none, []) := by
    simp [chooseBest, gate4, h1, h2, h3, h4, hb]
  refine ⟨?_, by rw [hcb]⟩
  unfold scrape_url
  rw [hcb]

/-- Claim C7, witness: a concrete input on which every strategy fails. -/
theorem claim_C7_extraction_failed_witness :
    scrape_url inputsC7 "blog" =
      .error (.extractionFailed (chooseBest inputsC7).2) ∧
    (chooseBest inputsC7).2 = [] :=
  claim_C7_extraction_failed inputsC7 "blog" rfl (by decide) rfl rfl

/-- Claim C1, amended: the chain keeps the attempt with the highest word
count among the produced attempts, so when strategy 1 yields 40 words,
strategy 3 yields 120 words and strategy 2 yields no attempt above 120
words, the chosen attempt has word count exactly 120 (and the AI
fallback, gated on fewer than 100 words, does not run). As the
counterexample shows, with a stronger strategy-2 attempt the chosen word
count is that higher one, not 120. -/
theorem claim_C1_highest_wins (i : UrlInputs)
    (h1 : (attempt1 i).map (fun a => a.word_count) = some 40)
    (h3 : (attempt3 i).map (fun a => a.word_count) = some 120)
    (h2 : ∀ a, attempt2 i = some a → a.word_count ≤ 120) :
    ((chooseBest i).1).map (fun a => a.word_count) = some 120 := by
  rcases ha1 : attempt1 i with _ | t1
  · rw [ha1] at h1; exact absurd h1 (by simp)
  rcases ha3 : attempt3 i with _ | t3
  · rw [ha3] at h3; exact absurd h3 (by simp)
  rw [ha1] at h1
  rw [ha3] at h3
  have hwc1 : t1.word_count = 40 := by simpa using h1
  have hwc3 : t3.word_count = 120 := by simpa using h3
  have hs1 : chainStep none (attempt1 i) = some t1 := by
    rw [ha1]; simp [chainStep, wcOf, hwc1]
  have hb12 : ∃ b, chainStep (chainStep none (attempt1 i)) (attempt2 i) = some b ∧
      40 ≤ b.word_count ∧ b.word_count ≤ 120 := by
    rw [hs1]
    rcases ha2 : attempt2 i with _ | t2
    · exact ⟨t1, rfl, by omega, by omega⟩
    · have ht2 := h2 t2 ha2
      by_cases hgt : wcOf (some t1) < t2.word_count
      · refine ⟨t2, ?_, ?_, by omega⟩
        · simp [chainStep, hgt]
        · simp [wcOf, hwc1] at hgt; omega
      · refine ⟨t1, ?_, by omega, by omega⟩
        simp [chainStep, hgt]
  obtain ⟨b, hbeq, hb40, hb120⟩ := hb12
  have hb3 : ∃ b3, best3 i = some b3 ∧ b3.word_count = 120 := by
    unfold best3
    rw [hbeq, ha3]
    by_cases hlt : wcOf (some b) < t3.word_count
    · exact ⟨t3, by simp [chainStep, hlt], hwc3⟩
    · refine ⟨b, by simp [chainStep, hlt], ?_⟩
      simp [wcOf, hwc3] at hlt
      omega
  obtain ⟨b3, hb3eq, hb3wc⟩ := hb3
  have hg : gate4 i = false := by
    simp [gate4, hb3eq, wcOf, hb3wc]
  simp [chooseBest, hg, hb3eq, hb3wc]

/-- Claim C1, witness for the amended statement: strategies 1 and 3 yield
40 and 120 words, strategy 2 yields nothing, and the chosen attempt has
word count 120. -/
theorem claim_C1_highest_wins_witness :
    ((chooseBest inputsC1w).1).map (fun a => a.word_count) = some 120 :=
  claim_C1_highest_wins inputsC1w (by decide) (by decide)
    (fun a ha => by
      rw [show attempt2 inputsC1w = none from rfl] at ha
      exact absurd ha (by simp))

theorem countTokensL_allWs (l : List Char) (h : l.all isWs) : countTokensL l = 0 := by
  induction l with
  | nil => rfl
  | cons c rest ih =>
    simp only [List.all_cons, Bool.and_eq_true] at h
    rw [countTokensL_cons, if_pos h.1]
    exact ih h.2

theorem allWs_of_pyStrip_nil (l : List Char) (h : pyStripL l = []) : l.all isWs := by
  rw [pyStripL] at h
  have h2 : (l.dropWhile isWs).reverse.dropWhile isWs = [] := by
    have := congrArg List.reverse h
    simpa using this
  rw [List.dropWhile_eq_nil_iff] at h2
  have h3 : (l.dropWhile isWs).all isWs := by
    rw [List.all_eq_true]
    intro x hx
    exact h2 x (List.mem_reverse.mpr hx)
  rw [← List.takeWhile_append_dropWhile isWs l, List.all_append,
    Bool.and_eq_true]
  exact ⟨takeWhile_all _ _, h3⟩

theorem pyStrip_ne_of_tokens (l : List Char) (h : 1 ≤ countTokensL l) :
    pyStripL l ≠ [] := by
  intro hnil
  rw [countTokensL_allWs l (allWs_of_pyStrip_nil l hnil)] at h
  omega

theorem ne_empty_of_tokens (s : String) (h : 1 ≤ countTokens s) : s ≠ "" := by
  intro he
  subst he
  simp [countTokens, countTokensL, countTokensGo] at h

theorem pyStrip_cons_ne (c : Char) (r : List Char) (hc : isWs c = false) :
    pyStripL (c :: r) ≠ [] := by
  intro h
  have := allWs_of_pyStrip_nil _ h
  simp only [List.all_cons, Bool.and_eq_true] at this
  rw [this.1] at hc
  exact absurd hc (by simp)

theorem splitNlL_ne_nil (z : List Char) : splitNlL z ≠ [] := by
  cases z with
  | nil => simp [splitNlL]
  | cons c rest =>
    by_cases h : c = '\n'
    · simp [splitNlL, h]
    · simp only [splitNlL, h, if_false]
      rcases splitNlL rest with _ | ⟨hd, tl⟩ <;> simp

theorem splitNlL_head_cons (c : Char) (Y : List Char) (h : c ≠ '\n') :
    ∃ hd tl, splitNlL (c :: Y) = (c :: hd) :: tl := by
  simp only [splitNlL, h, if_false]
  rcases splitNlL Y with _ | ⟨hd, tl⟩
  · exact ⟨[], [], rfl⟩
  · exact ⟨hd, tl, rfl⟩

theorem lineify_ne_nil (line : List Char) (h : pyStripL line ≠ []) :
    lineify line ≠ [] := by
  rw [lineify]
  simp only [h, if_false]
  split
  · simp
  · split <;> simpa using h

theorem joinNlL_cons_ne (x : List Char) (xs : List (List Char)) (h : x ≠ []) :
    joinNlL (x :: xs) ≠ [] := by
  cases xs with
  | nil => simpa [joinNlL] using h
  | cons y ys => simp [joinNlL]

theorem clean_ne_nil (l : List Char) (h : pyStripL l ≠ []) :
    clean_and_convert_to_markdownL l ≠ [] := by
  rcases hs : pyStripL l with _ | ⟨c, t⟩
  · exact absurd hs h
  have hcw : isWs c = false := by
    have hh := headNot_pyStrip l
    rw [hs] at hh
    simpa [headNotP] using hh
  have hcn : c ≠ '\n' := by
    intro he
    subst he
    exact absurd hcw (by simp [isWs])
  have hcs : isSpTab c = false := notWs_notSpTab c hcw
  rw [clean_and_convert_to_markdownL, hs, collapseNL_cons_not c t hcw,
    collapseSP_cons_not c _ hcs]
  obtain ⟨hd, tl, hsplit⟩ := splitNlL_head_cons c (collapseSP (collapseNL t)) hcn
  rw [hsplit, List.map_cons]
  exact joinNlL_cons_ne _ _ (lineify_ne_nil _ (pyStrip_cons_ne c hd hcw))

theorem clean_str_ne (s : String) (h : pyStripL s.data ≠ []) :
    clean_and_convert_to_markdown s ≠ "" := by
  rw [clean_and_convert_to_markdown]
  intro he
  have : clean_and_convert_to_markdownL s.data = [] := by
    have := congrArg String.data he
    simpa using this
  exact clean_ne_nil s.data h this

theorem attempt1_wc (i : UrlInputs) (a : Attempt) (h : attempt1 i = some a) :
    a.word_count = countTokens a.content := by
  unfold attempt1 at h
  rcases hn : i.news with _ | n
  · rw [hn] at h; simp at h
  rw [hn] at h
  simp only [Option.some_bind] at h
  rcases ht : n.text with _ | t
  · rw [ht] at h; simp at h
  rw [ht] at h
  simp only [Option.some_bind] at h
  split at h
  · injection h with h2
    subst h2
    rfl
  · simp at h

theorem attempt2_wc (i : UrlInputs) (a : Attempt) (h : attempt2 i = some a) :
    a.word_count = countTokens a.content := by
  unfold attempt2 at h
  rcases hn : i.traf with _ | n
  · rw [hn] at h; simp at h
  rw [hn] at h
  simp only [Option.some_bind] at h
  rcases ht : n.text with _ | t
  · rw [ht] at h; simp at h
  rw [ht] at h
  simp only [Option.some_bind] at h
  split at h
  · injection h with h2
    subst h2
    rfl
  · simp at h

theorem attempt3_wc (i : UrlInputs) (a : Attempt) (h : attempt3 i = some a) :
    a.word_count = countTokens a.content := by
  unfold attempt3 at h
  rcases hn : i.readab with _ | r
  · rw [hn] at h; simp at h
  rw [hn] at h
  simp only [Option.some_bind] at h
  split at h
  · injection h with h2
    subst h2
    rfl
  · simp at h

theorem attempt4raw_struct (i : UrlInputs) (a : Attempt) (h : attempt4raw i = some a) :
    a.word_count = countTokens a.content ∧
    ∃ g, i.gemFetch = some g ∧ a.content = g.content := by
  unfold attempt4raw at h
  rcases hg : i.gemFetch with _ | g
  · rw [hg] at h; simp at h
  rw [hg] at h
  simp only [Option.some_bind] at h
  split at h
  · injection h with h2
    subst h2
    exact ⟨rfl, g, rfl, rfl⟩
  · simp at h

theorem chainStep_inv (prev a : Option Attempt)
    (hp : ∀ p, prev = some p → p.word_count = countTokens p.content ∧ 1 ≤ p.word_count)
    (ha : ∀ x, a = some x → x.word_count = countTokens x.content) :
    ∀ q, chainStep prev a = some q →
      q.word_count = countTokens q.content ∧ 1 ≤ q.word_count := by
  intro q hq
  cases a with
  | none => exact hp q hq
  | some x =>
    simp only [chainStep] at hq
    split at hq
    · injection hq with h2
      subst h2
      refine ⟨ha _ rfl, ?_⟩
      rename_i hlt
      cases prev with
      | none => simpa [wcOf] using hlt
      | some p =>
        have := (hp p rfl).2
        simp only [wcOf] at hlt
        omega
    · exact hp q hq

theorem best3_inv (i : UrlInputs) :
    ∀ b, best3 i = some b →
      b.word_count = countTokens b.content ∧ 1 ≤ b.word_count := by
  unfold best3
  refine chainStep_inv _ _ (chainStep_inv _ _ (chainStep_inv _ _ ?_ ?_) ?_) ?_
  · intro p hp; exact absurd hp (by simp)
  · exact fun x => attempt1_wc i x
  · exact fun x => attempt2_wc i x
  · exact fun x => attempt3_wc i x

theorem chooseBest_inv (i : UrlInputs) (b : Attempt)
    (hb : (chooseBest i).1 = some b)
    (hg : ∀ g, i.gemFetch = some g → 1 ≤ countTokens g.content) :
    b.word_count = countTokens b.content ∧ 1 ≤ b.word_count := by
  have hcb : (chooseBest i).1 =
      if gate4 i then
        match attempt4raw i with
        | some t => some t
        | none => best3 i
      else best3 i := rfl
  rw [hcb] at hb
  by_cases hgate : gate4 i
  · rw [if_pos hgate] at hb
    rcases h4 : attempt4raw i with _ | t
    · rw [h4] at hb
      exact best3_inv i b hb
    · rw [h4] at hb
      injection hb with h2
      subst h2
      obtain ⟨hwc, g, hgf, hcont⟩ := attempt4raw_struct i _ h4
      refine ⟨hwc, ?_⟩
      rw [hwc, hcont]
      exact hg g hgf
  · rw [if_neg hgate] at hb
    exact best3_inv i b hb

theorem mkPdfItem_spec (t raw fn uid : String) (hlen : 50 < (pyStrip raw).length) :
    PdfItemSpec fn uid (mkPdfItem t (clean_and_convert_to_markdown raw) fn uid) :=
  ⟨raw, hlen, rfl, rfl, rfl, rfl, rfl, rfl⟩

theorem toc_loop_spec (pages : List PdfPage) (fn uid : String) :
    ∀ (spans : List (String × Nat × Nat)) (acc : List PdfItem),
      (∀ x ∈ acc, PdfItemSpec fn uid x) →
      ∀ it ∈ (toc_loop pages fn uid spans acc).1, PdfItemSpec fn uid it := by
  intro spans
  induction spans with
  | nil => intro acc hacc it hit; exact hacc it hit
  | cons sp rest ih =>
    intro acc hacc it hit
    obtain ⟨t, s, e⟩ := sp
    rcases hx : extract_text_range pages s e with _ | content
    · simp only [toc_loop, hx] at hit
      exact hacc it hit
    · simp only [toc_loop, hx] at hit
      by_cases hlen : 50 < (pyStripL content).length
      · rw [if_pos hlen] at hit
        refine ih _ ?_ it hit
        intro x hxm
        rcases List.mem_append.mp hxm with hm | hm
        · exact hacc x hm
        · have hxe : x = mkPdfItem t (clean_and_convert_to_markdown ⟨content⟩) fn uid := by
            simpa using hm
          subst hxe
          refine mkPdfItem_spec t ⟨content⟩ fn uid ?_
          simpa [pyStrip] using hlen
      · rw [if_neg hlen] at hit
        exact ih _ hacc it hit

theorem mem_headings_items_spec (fn uid : String)
    (hchunks : List (Option String × String × String)) (it : PdfItem)
    (hit : it ∈ hchunks.enum.filterMap (fun p =>
      if 50 < (pyStrip p.2.2.1).length then
        some (mkPdfItem
          (pyOrStr p.2.1
            ("Section " ++ toString (p.1 + 1) ++ " (pages " ++ p.2.2.2 ++ ")"))
          (clean_and_convert_to_markdown p.2.2.1) fn uid)
      else none)) : PdfItemSpec fn uid it := by
  obtain ⟨p, hp, heq⟩ := List.mem_filterMap.mp hit
  split at heq
  · injection heq with h2
    subst h2
    rename_i hlen
    exact mkPdfItem_spec _ _ fn uid hlen
  · simp at heq

theorem mem_adaptive_items_spec (fn uid : String)
    (achunks : List (String × String)) (it : PdfItem)
    (hit : it ∈ achunks.enum.filterMap (fun p =>
      if 50 < (pyStrip p.2.1).length then
        some (mkPdfItem
          ("Chunk " ++ toString (p.1 + 1) ++ " (pages " ++ p.2.2 ++ ")")
          (clean_and_convert_to_markdown p.2.1) fn uid)
      else none)) : PdfItemSpec fn uid it := by
  obtain ⟨p, hp, heq⟩ := List.mem_filterMap.mp hit
  split at heq
  · injection heq with h2
    subst h2
    rename_i hlen
    exact mkPdfItem_spec _ _ fn uid hlen
  · simp at heq

theorem scrape_pdf_tail_spec (pages : List PdfPage) (fn uid : String) :
    ∀ it ∈ scrape_pdf_tail pages fn uid, PdfItemSpec fn uid it := by
  intro it hit
  rcases hh : chunk_by_headings pages with _ | hchunks
  · simp only [scrape_pdf_tail, hh] at hit
    exact absurd hit (by simp)
  simp only [scrape_pdf_tail, hh] at hit
  by_cases h3 : 3 ≤ hchunks.length
  · rw [if_pos h3] at hit
    split at hit
    · exact mem_headings_items_spec fn uid hchunks it hit
    · rcases ha : adaptive_chunking pages with _ | achunks
      · rw [ha] at hit
        exact absurd hit (by simp)
      · rw [ha] at hit
        exact mem_adaptive_items_spec fn uid achunks it hit
  · rw [if_neg h3] at hit
    rw [if_neg (by simp : ¬(([] : List PdfItem) ≠ []))] at hit
    rcases ha : adaptive_chunking pages with _ | achunks
    · rw [ha] at hit
      exact absurd hit (by simp)
    · rw [ha] at hit
      exact mem_adaptive_items_spec fn uid achunks it hit

theorem scrape_pdf_items_spec (doc : Option (List PdfPage)) (fn uid : String) :
    ∀ it ∈ scrape_pdf doc fn uid, PdfItemSpec fn uid it := by
  intro it hit
  cases doc with
  | none => simp [scrape_pdf] at hit
  | some pages =>
    rcases hd : detect_toc pages with _ | toc
    · simp only [scrape_pdf, hd] at hit
      exact absurd hit (by simp)
    simp only [scrape_pdf, hd] at hit
    by_cases htoc : toc ≠ []
    · rw [if_pos htoc] at hit
      rcases hL : toc_loop pages fn uid (tocSpans toc pages.length) [] with ⟨items, flag⟩
      rw [hL] at hit
      cases flag with
      | true =>
        exact toc_loop_spec pages fn uid (tocSpans toc pages.length) [] (by simp) it
          (by rw [hL]; exact hit)
      | false =>
        have hit2 : it ∈ (if items ≠ [] then items
            else scrape_pdf_tail pages fn uid) := hit
        by_cases hi : items ≠ []
        · rw [if_pos hi] at hit2
          exact toc_loop_spec pages fn uid (tocSpans toc pages.length) [] (by simp) it
            (by rw [hL]; exact hit2)
        · rw [if_neg hi] at hit2
          exact scrape_pdf_tail_spec pages fn uid it hit2
    · rw [if_neg htoc] at hit
      exact scrape_pdf_tail_spec pages fn uid it hit

theorem pyStripL_ne_of_len (raw : String) (hlen : 50 < (pyStrip raw).length) :
    pyStripL raw.data ≠ [] := by
  intro hnil
  have hl : (pyStrip raw).length = (pyStripL raw.data).length := rfl
  rw [hl, hnil] at hlen
  simp at hlen

/-- Claim C2, amended: every record `scrape_url` returns has
`word_count` equal to the whitespace-token count of its own content, and
non-empty content provided the AI-extracted content (when used) has at
least one token and any AI-enhancement content is not the empty string;
the items `scrape_pdf` returns have non-empty content but carry no
`word_count` key at all (the counterexample exhibits this last
divergence). -/
theorem claim_C2_creation_invariant :
    (∀ (i : UrlInputs) (ct : String) (it : ScrapedContent),
      scrape_url i ct = .ok it → it.word_count = countTokens it.content) ∧
    (∀ (i : UrlInputs) (ct : String) (it : ScrapedContent),
      scrape_url i ct = .ok it →
      (∀ g, i.gemFetch = some g → 1 ≤ countTokens g.content) →
      (∀ e t, i.enhance = some e → e.content = some t → t ≠ "") →
      it.content ≠ "") ∧
    (∀ (doc : Option (List PdfPage)) (fn uid : String) (it : PdfItem),
      it ∈ scrape_pdf doc fn uid → it.content ≠ "" ∧ it.word_count = none) := by
  refine ⟨?_, ?_, ?_⟩
  · intro i ct it h
    rcases hcb : chooseBest i with ⟨ob, tr⟩
    cases ob with
    | none =>
      simp only [scrape_url, hcb] at h
      exact absurd h (by simp)
    | some best =>
      simp only [scrape_url, hcb] at h
      cases hee : (if i.geminiModel ∧ pyStrip best.content ≠ "" then i.enhance
          else none) with
      | some e =>
        rw [hee] at h
        injection h with h2
        subst h2
        rfl
      | none =>
        rw [hee] at h
        injection h with h2
        subst h2
        rfl
  · intro i ct it h hg he
    rcases hcb : chooseBest i with ⟨ob, tr⟩
    cases ob with
    | none =>
      simp only [scrape_url, hcb] at h
      exact absurd h (by simp)
    | some best =>
      have hinv := chooseBest_inv i best (by rw [hcb]) hg
      have htok : 1 ≤ countTokens best.content := by
        obtain ⟨h1, h2⟩ := hinv
        omega
      simp only [scrape_url, hcb] at h
      cases hee : (if i.geminiModel ∧ pyStrip best.content ≠ "" then i.enhance
          else none) with
      | some e =>
        rw [hee] at h
        injection h with h2
        subst h2
        have henh : i.enhance = some e := by
          by_cases hcond : i.geminiModel ∧ pyStrip best.content ≠ ""
          · rwa [if_pos hcond] at hee
          · rw [if_neg hcond] at hee
            exact absurd hee (by simp)
        show e.content.getD best.content ≠ ""
        cases hec : e.content with
        | some t => simpa [hec] using he e t henh hec
        | none => simpa [hec] using ne_empty_of_tokens best.content htok
      | none =>
        rw [hee] at h
        injection h with h2
        subst h2
        show clean_and_convert_to_markdown best.content ≠ ""
        exact clean_str_ne _ (pyStrip_ne_of_tokens _ htok)
  · intro doc fn uid it hit
    obtain ⟨raw, hlen, hcont, hwc, _⟩ := scrape_pdf_items_spec doc fn uid it hit
    refine ⟨?_, hwc⟩
    rw [hcont]
    exact clean_str_ne _ (pyStripL_ne_of_len raw hlen)

/-- Claim C2, witness: a concrete successful `scrape_url` record
satisfying the invariant, and a concrete `scrape_pdf` item with
non-empty content and no word count. -/
theorem claim_C2_creation_invariant_witness :
    itemC2w.word_count = countTokens itemC2w.content ∧
    itemC2w.content ≠ "" ∧
    pdfItemC6.content ≠ "" ∧ pdfItemC6.word_count = none :=
  ⟨claim_C2_creation_invariant.1 inputsC2w "blog" itemC2w (by decide),
   claim_C2_creation_invariant.2.1 inputsC2w "blog" itemC2w (by decide)
     (fun g hgf => by
       rw [show inputsC2w.gemFetch = none from rfl] at hgf
       exact absurd hgf (by simp))
     (fun e t hef _ => by
       rw [show inputsC2w.enhance = none from rfl] at hef
       exact absurd hef (by simp)),
   (claim_C2_creation_invariant.2.2 (some pagesC6) "f.pdf" "" pdfItemC6 (by decide)).1,
   (claim_C2_creation_invariant.2.2 (some pagesC6) "f.pdf" "" pdfItemC6 (by decide)).2⟩

/-- Claim C6, amended: the 50-character drop threshold is applied to the
raw extracted section text (stripped), before normalization: every item
`scrape_pdf` emits has content equal to the markdown cleanup of some raw
text whose stripped length exceeds 50 — but, as the counterexample shows,
the normalized content itself can be shorter than 50 characters. -/
theorem claim_C6_raw_threshold (doc : Option (List PdfPage)) (fn uid : String)
    (it : PdfItem) (h : it ∈ scrape_pdf doc fn uid) :
    ∃ raw : String, 50 < (pyStrip raw).length ∧
      it.content = clean_and_convert_to_markdown raw := by
  obtain ⟨raw, hlen, hcont, _⟩ := scrape_pdf_items_spec doc fn uid it h
  exact ⟨raw, hlen, hcont⟩

/-- Claim C6, witness: the concrete emitted item of `pagesC6` indeed is
the cleanup of a raw text longer than 50 characters once stripped. -/
theorem claim_C6_raw_threshold_witness :
    pdfItemC6 ∈ scrape_pdf (some pagesC6) "f.pdf" "" ∧
    ∃ raw : String, 50 < (pyStrip raw).length ∧
      pdfItemC6.content = clean_and_convert_to_markdown raw :=
  ⟨by decide, claim_C6_raw_threshold (some pagesC6) "f.pdf" "" pdfItemC6 (by decide)⟩

theorem detect_toc_go_map (n : Nat) (l : List PdfPage) (es : List (String × Nat))
    (h : detect_toc_go n l = .ok es) :
    detect_toc_go n (l.map fixPage) = .ok es := by
  induction l generalizing es with
  | nil => simpa [detect_toc_go] using h
  | cons p rest ih =>
    cases p with
    | error e => simp [detect_toc_go] at h
    | ok t =>
      simp only [detect_toc_go] at h
      rcases hr : detect_toc_go n rest with _ | es2
      · rw [hr] at h; simp [Except.map] at h
      · rw [hr] at h
        simp only [Except.map] at h
        injection h with h2
        simp only [List.map_cons, fixPage, detect_toc_go, ih es2 hr, Except.map]
        rw [h2]

theorem detect_toc_map (pages : List PdfPage) (toc : List (String × Nat))
    (h : detect_toc pages = .ok toc) :
    detect_toc (pages.map fixPage) = .ok toc := by
  unfold detect_toc at h ⊢
  rw [List.length_map]
  have htake : (pages.map fixPage).take 10 = (pages.take 10).map fixPage := by
    simp [List.map_take]
  rcases hg : detect_toc_go pages.length (pages.take 10) with _ | es
  · rw [hg] at h; simp [Except.map] at h
  · rw [hg] at h
    rw [htake, detect_toc_go_map _ _ es hg]
    exact h

theorem range_go_map (l : List PdfPage) (c : List Char) (h : range_go l = .ok c) :
    range_go (l.map fixPage) = .ok c := by
  induction l generalizing c with
  | nil => simpa [range_go] using h
  | cons p rest ih =>
    cases p with
    | error e => simp [range_go] at h
    | ok t =>
      simp only [range_go] at h
      rcases hr : range_go rest with _ | c2
      · rw [hr] at h; simp [Except.map] at h
      · rw [hr] at h
        simp only [Except.map] at h
        injection h with h2
        simp only [List.map_cons, fixPage, range_go, ih c2 hr, Except.map]
        rw [h2]

theorem extract_text_range_map (pages : List PdfPage) (s e : Nat) (c : List Char)
    (h : extract_text_range pages s e = .ok c) :
    extract_text_range (pages.map fixPage) s e = .ok c := by
  unfold extract_text_range at h ⊢
  rw [List.length_map]
  have hcomm : ((pages.map fixPage).take (min e pages.length)).drop s =
      (((pages.take (min e pages.length)).drop s).map fixPage) := by
    simp [List.map_take, List.map_drop]
  rw [hcomm]
  exact range_go_map _ c h

theorem toc_loop_acc_pref (pages : List PdfPage) (fn uid : String) :
    ∀ (spans : List (String × Nat × Nat)) (acc : List PdfItem),
      ∃ t, acc ++ t = (toc_loop pages fn uid spans acc).1 := by
  intro spans
  induction spans with
  | nil => intro acc; exact ⟨[], List.append_nil acc⟩
  | cons sp rest ih =>
    intro acc
    obtain ⟨t, s, e⟩ := sp
    rcases hx : extract_text_range pages s e with _ | content
    · exact ⟨[], by simp only [toc_loop, hx]; exact List.append_nil acc⟩
    · by_cases hlen : 50 < (pyStripL content).length
      · obtain ⟨t2, ht2⟩ := ih
          (acc ++ [mkPdfItem t (clean_and_convert_to_markdown ⟨content⟩) fn uid])
        refine ⟨[mkPdfItem t (clean_and_convert_to_markdown ⟨content⟩) fn uid] ++ t2, ?_⟩
        simp only [toc_loop, hx, if_pos hlen]
        rw [← List.append_assoc]
        exact ht2
      · obtain ⟨t2, ht2⟩ := ih acc
        exact ⟨t2, by simp only [toc_loop, hx, if_neg hlen]; exact ht2⟩

theorem toc_loop_map (pages : List PdfPage) (fn uid : String) :
    ∀ (spans : List (String × Nat × Nat)) (acc : List PdfItem),
      (∃ t, (toc_loop pages fn uid spans acc).1 ++ t =
        (toc_loop (pages.map fixPage) fn uid spans acc).1) ∧
      ((toc_loop pages fn uid spans acc).2 = false →
        toc_loop (pages.map fixPage) fn uid spans acc =
          toc_loop pages fn uid spans acc) := by
  intro spans
  induction spans with
  | nil => intro acc; exact ⟨⟨[], List.append_nil _⟩, fun _ => rfl⟩
  | cons sp rest ih =>
    intro acc
    obtain ⟨t, s, e⟩ := sp
    rcases hx : extract_text_range pages s e with _ | content
    · constructor
      · obtain ⟨t2, ht2⟩ :=
          toc_loop_acc_pref (pages.map fixPage) fn uid ((t, s, e) :: rest) acc
        exact ⟨t2, by simp only [toc_loop, hx]; exact ht2⟩
      · intro hf
        simp only [toc_loop, hx] at hf
        exact absurd hf (by simp)
    · have hxm := extract_text_range_map pages s e content hx
      by_cases hlen : 50 < (pyStripL content).length
      · have e1 : toc_loop pages fn uid ((t, s, e) :: rest) acc =
            toc_loop pages fn uid rest
              (acc ++ [mkPdfItem t (clean_and_convert_to_markdown ⟨content⟩) fn uid]) := by
          simp only [toc_loop, hx, if_pos hlen]
        have e2 : toc_loop (pages.map fixPage) fn uid ((t, s, e) :: rest) acc =
            toc_loop (pages.map fixPage) fn uid rest
              (acc ++ [mkPdfItem t (clean_and_convert_to_markdown ⟨content⟩) fn uid]) := by
          simp only [toc_loop, hxm, if_pos hlen]
        rw [e1, e2]
        exact ih _
      · have e1 : toc_loop pages fn uid ((t, s, e) :: rest) acc =
            toc_loop pages fn uid rest acc := by
          simp only [toc_loop, hx, if_neg hlen]
        have e2 : toc_loop (pages.map fixPage) fn uid ((t, s, e) :: rest) acc =
            toc_loop (pages.map fixPage) fn uid rest acc := by
          simp only [toc_loop, hxm, if_neg hlen]
        rw [e1, e2]
        exact ih acc

theorem chunk_go_noerr (l : List PdfPage) :
    ∀ (idx total : Nat) (ti : Option String) (co : List Char) (st : Nat)
      (acc r : List (Option String × String × String)),
      chunk_go idx total ti co st acc l = .ok r → l.map fixPage = l := by
  induction l with
  | nil => intro _ _ _ _ _ _ _ _; rfl
  | cons p rest ih =>
    intro idx total ti co st acc r h
    cases p with
    | error e => simp [chunk_go] at h
    | ok t =>
      simp only [chunk_go] at h
      rcases hfh : firstHeading (splitCharL '\n' t.data) with _ | hl
      · rw [hfh] at h
        simp only [List.map_cons, fixPage, ih _ _ _ _ _ _ _ h]
      · rw [hfh] at h
        simp only [List.map_cons, fixPage, ih _ _ _ _ _ _ _ h]

theorem adaptive_go_noerr (l : List PdfPage) :
    ∀ (idx total : Nat) (co : List Char) (st : Nat)
      (acc r : List (String × String)),
      adaptive_go idx total co st acc l = .ok r → l.map fixPage = l := by
  induction l with
  | nil => intro _ _ _ _ _ _ _; rfl
  | cons p rest ih =>
    intro idx total co st acc r h
    cases p with
    | error e => simp [adaptive_go] at h
    | ok t =>
      simp only [adaptive_go] at h
      by_cases hb : 8000 < (co ++ t.data ++ ['\n']).length
      · rw [if_pos hb] at h
        simp only [List.map_cons, fixPage, ih _ _ _ _ _ _ h]
      · rw [if_neg hb] at h
        simp only [List.map_cons, fixPage, ih _ _ _ _ _ _ h]

theorem scrape_pdf_tail_map (pages : List PdfPage) (fn uid : String) :
    ∃ t, scrape_pdf_tail pages fn uid ++ t =
      scrape_pdf_tail (pages.map fixPage) fn uid := by
  rcases hh : chunk_by_headings pages with _ | hchunks
  · refine ⟨scrape_pdf_tail (pages.map fixPage) fn uid, ?_⟩
    simp only [scrape_pdf_tail, hh]
    simp
  · have hid : pages.map fixPage = pages :=
      chunk_go_noerr pages _ _ _ _ _ _ _ hh
    exact ⟨[], by rw [hid, List.append_nil]⟩

/-- Claim C10, amended: `scrape_pdf` is total at its interface — bytes
that cannot be parsed yield the empty list, and an internal extraction
failure yields the items accumulated before the failure, which form a
(possibly non-empty) initial segment of what the failure-free run over
the same document would return, never a propagated exception. -/
theorem claim_C10_totality :
    (∀ fn uid, scrape_pdf none fn uid = []) ∧
    (∀ (pages : List PdfPage) (fn uid : String),
      ∃ t, scrape_pdf (some pages) fn uid ++ t =
        scrape_pdf (some (pages.map fixPage)) fn uid) := by
  refine ⟨fun _ _ => rfl, ?_⟩
  intro pages fn uid
  rcases hd : detect_toc pages with _ | toc
  · refine ⟨scrape_pdf (some (pages.map fixPage)) fn uid, ?_⟩
    simp only [scrape_pdf, hd]
    simp
  · have hdm := detect_toc_map pages toc hd
    have hlen : (pages.map fixPage).length = pages.length := List.length_map _ _
    by_cases htoc : toc ≠ []
    · rcases hL : toc_loop pages fn uid (tocSpans toc pages.length) [] with ⟨items, flag⟩
      rcases hM : toc_loop (pages.map fixPage) fn uid (tocSpans toc pages.length) []
        with ⟨mitems, mflag⟩
      have hLm := toc_loop_map pages fn uid (tocSpans toc pages.length) []
      have e1 : scrape_pdf (some pages) fn uid =
          (match (items, flag) with
           | (its, true) => its
           | (its, false) =>
             if its ≠ [] then its else scrape_pdf_tail pages fn uid) := by
        simp only [scrape_pdf, hd, if_pos htoc, hL]
      have e2 : scrape_pdf (some (pages.map fixPage)) fn uid =
          (match (mitems, mflag) with
           | (its, true) => its
           | (its, false) =>
             if its ≠ [] then its
             else scrape_pdf_tail (pages.map fixPage) fn uid) := by
        simp only [scrape_pdf, hdm, if_pos htoc, hlen, hM]
      rw [e1, e2]
      cases flag with
      | true =>
        obtain ⟨t, ht⟩ := hLm.1
        rw [hL, hM] at ht
        simp only at ht
        cases mflag with
        | true => exact ⟨t, ht⟩
        | false =>
          by_cases hmi : mitems ≠ []
          · exact ⟨t, by dsimp only; rw [if_pos hmi]; exact ht⟩
          · have hmi2 : mitems = [] := by simpa using hmi
            have hit : items = [] := by
              rw [hmi2] at ht
              exact (List.append_eq_nil.mp ht).1
            exact ⟨scrape_pdf_tail (pages.map fixPage) fn uid,
              by dsimp only; rw [hit, if_neg hmi]; simp⟩
      | false =>
        have heq := hLm.2 (by rw [hL])
        rw [hL, hM] at heq
        injection heq with hi1 hi2
        subst hi2
        rw [hi1]
        dsimp only
        by_cases hi : items ≠ []
        · exact ⟨[], by rw [if_pos hi, if_pos hi, List.append_nil]⟩
        · rw [if_neg hi, if_neg hi]
          exact scrape_pdf_tail_map pages fn uid
    · have htoc2 : toc = [] := by simpa using htoc
      subst htoc2
      have e1 : scrape_pdf (some pages) fn uid = scrape_pdf_tail pages fn uid := by
        simp [scrape_pdf, hd]
      have e2 : scrape_pdf (some (pages.map fixPage)) fn uid =
          scrape_pdf_tail (pages.map fixPage) fn uid := by
        simp [scrape_pdf, hdm]
      rw [e1, e2]
      exact scrape_pdf_tail_map pages fn uid
